import Mathlib

/-!
# Thruster_Commander: control allocation of the 2024 vehicle

A shallow embedding of `src/lib/Thruster_Commander.cpp`.

* The C++ `float`/`double` values are modelled as elements of an arbitrary linearly ordered
  field `K` with exact arithmetic; every definition is computable and can be evaluated at
  `K = ℚ`, and every theorem holds at `K = ℝ`.
* `sin(45 * PI / 180)` is a call into the C math library.  Its value is the parameter `sin45`
  of the definitions that use it.  The functions `cos`, `sin` and `sqrt` of the C math library
  and the function that an unqualified `abs` resolves to are parameters too; the theorems take
  them to be `Real.cos`, `Real.sin`, `Real.sqrt` and the absolute value.
* Eigen fixed-size matrices are Mathlib matrices indexed by `Fin`.
* The pins of `src/Propulsion_2024/Command_Interpreter.cpp` are records; a method returns the
  pin afterwards together with the list of wiringPi calls it made.
-/

open Matrix

/-! ## Data model (`Thruster_Commander.h`) -/

/-- The type `typedef Eigen::Matrix<float, 8, 1> thruster_set`. -/
abbrev thruster_set (K : Type) := Fin 8 → K

/-- The type `typedef Eigen::Matrix<float, 8, 3> thruster_set_3D`. -/
abbrev thruster_set_3D (K : Type) := Matrix (Fin 8) (Fin 3) K

/-- The type `typedef Eigen::Matrix<float, 8, 6> thruster_set_6D`. -/
abbrev thruster_set_6D (K : Type) := Matrix (Fin 8) (Fin 6) K

/-- The type `typedef Eigen::Matrix<float, 1, 6> six_axis`. -/
abbrev six_axis (K : Type) := Fin 6 → K

/-- The type `typedef Eigen::Matrix<float, 1, 3> three_axis`. -/
abbrev three_axis (K : Type) := Fin 3 → K

/-- The members of `class Thruster_Commander` that the constructor sets. -/
structure Thruster_Commander (K : Type) where
  num_thrusters : Nat
  mass_center : three_axis K
  volume_center : three_axis K
  thruster_positions : thruster_set_3D K
  thruster_moment_arms : thruster_set_3D K
  thruster_directions : thruster_set_3D K
  thruster_torques : thruster_set_3D K
  wrench_matrix_transposed : thruster_set_6D K
  wrench_matrix : Matrix (Fin 6) (Fin 8) K
  volume : K
  mass : K
  gravity : K
  rho_water : K
  weight_magnitude : K
  buoyant_magnitude : K
  max_thruster_level : K
  max_thruster_force : K
  min_thruster_force : K
  position : six_axis K
  velocity : six_axis K
  acceleration : six_axis K
  combined_drag_coefs : six_axis K

/-! ## Pins (`Command_Interpreter.cpp`, lines 7-70) -/

/-- Modelled from the spec: `Command_Interpreter.h` is not under `src/`; the enumeration
`EnableType` with the two values that `DigitalPin::enable` and `DigitalPin::disable`
distinguish. -/
inductive EnableType where
  | ActiveHigh
  | ActiveLow
  deriving DecidableEq

/-- Modelled from the spec: `Command_Interpreter.h` is not under `src/`; the enumeration of the
values that `pinStatus` takes in `Command_Interpreter.cpp`. -/
inductive PinStatus where
  | Enabled
  | Disabled
  deriving DecidableEq

/-- A call into the wiringPi library made by a pin method. -/
inductive PinWrite where
  /-- The call `digitalWrite(gpioNumber, level)`; `true` stands for `HIGH`. -/
  | digitalWrite (gpioNumber : Int) (level : Bool)
  /-- The call `pwmWrite(gpioNumber, pwmValue)`. -/
  | pwmWrite (gpioNumber : Int) (pwmValue : Int)
  deriving DecidableEq

/-- The members of `class DigitalPin`. -/
structure DigitalPin where
  gpioNumber : Int
  pinStatus : PinStatus
  enableType : EnableType

/-- The members of `class PwmPin`. -/
structure PwmPin where
  gpioNumber : Int
  currentPwm : Int

/-- The method `DigitalPin::enable`: the pin afterwards and the library calls made. -/
def DigitalPin.enable (pin : DigitalPin) : DigitalPin × List PinWrite :=
  let writes :=
    match pin.enableType with
    | EnableType.ActiveHigh => [PinWrite.digitalWrite pin.gpioNumber true]
    | EnableType.ActiveLow => [PinWrite.digitalWrite pin.gpioNumber false]
  ({ pin with pinStatus := PinStatus.Enabled }, writes)

/-- The method `DigitalPin::disable`: the pin afterwards and the library calls made. -/
def DigitalPin.disable (pin : DigitalPin) : DigitalPin × List PinWrite :=
  let writes :=
    match pin.enableType with
    | EnableType.ActiveHigh => [PinWrite.digitalWrite pin.gpioNumber false]
    | EnableType.ActiveLow => [PinWrite.digitalWrite pin.gpioNumber true]
  ({ pin with pinStatus := PinStatus.Disabled }, writes)

/-- The method `DigitalPin::enabled`. -/
def DigitalPin.enabled (pin : DigitalPin) : Bool :=
  pin.pinStatus == PinStatus.Enabled

/-- The method `PwmPin::setPowerAndDirection`; the direction argument is not used by the
source. -/
def PwmPin.setPowerAndDirection (pin : PwmPin) (pwmValue : Int) : PwmPin × List PinWrite :=
  ({ pin with currentPwm := pwmValue }, [PinWrite.pwmWrite pin.gpioNumber pwmValue])

/-- The method `PwmPin::enable`. -/
def PwmPin.enable (pin : PwmPin) : PwmPin × List PinWrite :=
  let (pin, writes) := pin.setPowerAndDirection 255
  ({ pin with currentPwm := 255 }, writes)

/-- The method `PwmPin::disable`. -/
def PwmPin.disable (pin : PwmPin) : PwmPin × List PinWrite :=
  let (pin, writes) := pin.setPowerAndDirection 0
  ({ pin with currentPwm := 255 }, writes)

/-- The method `PwmPin::enabled`. -/
def PwmPin.enabled (pin : PwmPin) : Bool :=
  pin.currentPwm != 0

namespace Thruster_Commander

variable {K : Type} [LinearOrderedField K]

set_option linter.unusedSectionVars false

/-! ## Eigen operations used by the source -/

/-- Eigen `a.cross(b)` on 3-vectors. -/
def cross (a b : three_axis K) : three_axis K :=
  ![a 1 * b 2 - a 2 * b 1, a 2 * b 0 - a 0 * b 2, a 0 * b 1 - a 1 * b 0]

/-- The loop `for (int i = 0; i < n; i++) M.row(i) = rows(i);` on a matrix with 8 rows. -/
def assignRows {m : Type} (n : Nat) (rows : Fin 8 → m → K) (M : Matrix (Fin 8) m K) :
    Matrix (Fin 8) m K :=
  (List.range n).foldl
    (fun acc i => if h : i < 8 then Function.update acc ⟨i, h⟩ (rows ⟨i, h⟩) else acc) M

/-- Row `i` of the 8x6 matrix after
`row(i).segment(0, 3) = d; row(i).segment(3, 3) = t;`. -/
def segments (d t : three_axis K) : six_axis K :=
  ![d 0, d 1, d 2, t 0, t 1, t 2]

/-! ## The constructor (`Thruster_Commander.cpp`, lines 15-101) -/

/-- The matrix `thruster_positions`, rows 0..7 as written by the `<<` initialisers. -/
def reference_positions : thruster_set_3D K :=
  !![0.2535, -0.2035, 0.042;
     0.2535, 0.2035, 0.042;
     -0.2545, -0.2035, 0.042;
     -0.2545, 0.2035, 0.042;
     0.167, -0.1375, -0.049;
     0.167, 0.1375, -0.049;
     -0.1975, -0.1165, -0.049;
     -0.1975, 0.1165, -0.049]

/-- The matrix `thruster_directions`, rows 0..7 as written by the `<<` initialisers. -/
def reference_directions (sin45 : K) : thruster_set_3D K :=
  !![0, 0, 1;
     0, 0, 1;
     0, 0, 1;
     0, 0, 1;
     -sin45, -sin45, 0;
     -sin45, sin45, 0;
     -sin45, sin45, 0;
     -sin45, -sin45, 0]

/-- The method `Thruster_Commander::Thruster_Commander()`; `sin45` is the value of
`sin(45 * PI / 180)`. -/
def construct (sin45 : K) : Thruster_Commander K :=
  let num_thrusters : Nat := 8
  let mass_center_inches : three_axis K := ![0.466, 0, 1.561]
  let mass_center : three_axis K := fun j => mass_center_inches j * 0.0254
  let volume_center : three_axis K := Function.update mass_center 2 (mass_center 2 + 0.1)
  let thruster_positions : thruster_set_3D K := reference_positions
  -- thruster_positions - mass_center.replicate(8, 1)
  let thruster_moment_arms : thruster_set_3D K :=
    fun i j => thruster_positions i j - mass_center j
  let thruster_directions : thruster_set_3D K := reference_directions sin45
  let thruster_torques : thruster_set_3D K :=
    assignRows num_thrusters
      (fun i => cross (thruster_moment_arms i) (thruster_directions i)) 0
  let wrench_matrix_transposed : thruster_set_6D K :=
    assignRows num_thrusters
      (fun i => segments (thruster_directions i) (thruster_torques i)) 0
  let volume_inches : K := 449.157
  let volume : K := volume_inches * 0.0254 ^ 3
  let mass : K := 5.51
  let gravity : K := -9.81
  let rho_water : K := 1025
  let c_inf : six_axis K := ![0.041, 0.05, 0.125, 0.005, 0.005, 0.005]
  { num_thrusters := num_thrusters
    mass_center := mass_center
    volume_center := volume_center
    thruster_positions := thruster_positions
    thruster_moment_arms := thruster_moment_arms
    thruster_directions := thruster_directions
    thruster_torques := thruster_torques
    wrench_matrix_transposed := wrench_matrix_transposed
    wrench_matrix := wrench_matrix_transposed.transpose
    volume := volume
    mass := mass
    gravity := gravity
    rho_water := rho_water
    weight_magnitude := mass * gravity
    buoyant_magnitude := -rho_water * gravity * volume
    max_thruster_level := 0.9
    max_thruster_force := 4.5
    min_thruster_force := -3.5
    position := 0
    velocity := 0
    acceleration := 0
    combined_drag_coefs := fun j => c_inf j * rho_water }

/-! ## Wrench prediction (lines 257-274, 301-305) -/

/-- The method `Thruster_Commander::compute_forces`: the loop accumulating
`forces.forces[i] * thruster_directions.row(i)`. -/
def compute_forces (tc : Thruster_Commander K) (forces : Fin 8 → K) : three_axis K :=
  (List.range tc.num_thrusters).foldl
    (fun total_force i =>
      if h : i < 8 then total_force + forces ⟨i, h⟩ • tc.thruster_directions ⟨i, h⟩
      else total_force) 0

/-- The method `Thruster_Commander::compute_torques`: the loop accumulating
`forces.forces[i] * thruster_torques.row(i)`. -/
def compute_torques (tc : Thruster_Commander K) (forces : Fin 8 → K) : three_axis K :=
  (List.range tc.num_thrusters).foldl
    (fun total_torque i =>
      if h : i < 8 then total_torque + forces ⟨i, h⟩ • tc.thruster_torques ⟨i, h⟩
      else total_torque) 0

/-- The method `Thruster_Commander::net_force_from_thrusters`: `wrench_matrix * thrusters`. -/
def net_force_from_thrusters (tc : Thruster_Commander K) (thrusters : thruster_set K) :
    six_axis K :=
  tc.wrench_matrix.mulVec thrusters

/-! ## Specialised closed-form solvers (lines 306-355) -/

/-- The method `Thruster_Commander::thrust_compute_fz`. -/
def thrust_compute_fz (z_force : K) : thruster_set K :=
  let force_per_thruster := z_force / 4
  let thrusters : thruster_set K := 0
  let thrusters := Function.update thrusters 0 force_per_thruster
  let thrusters := Function.update thrusters 1 force_per_thruster
  let thrusters := Function.update thrusters 2 force_per_thruster
  let thrusters := Function.update thrusters 3 force_per_thruster
  thrusters

/-- The method `Thruster_Commander::thrust_compute_fy`; `sin_45` is the value of
`sin(45 * 3.141592653589793 / 180)`. -/
def thrust_compute_fy (sin_45 : K) (y_force : K) : thruster_set K :=
  let force_per_thruster := y_force / (4 * sin_45)
  let forces : thruster_set K := 0
  let forces := Function.update forces 4 (-force_per_thruster)
  let forces := Function.update forces 5 force_per_thruster
  let forces := Function.update forces 6 force_per_thruster
  let forces := Function.update forces 7 (-force_per_thruster)
  forces

/-- The method `Thruster_Commander::thrust_compute_fx`; `sin_45` is the value of
`sin(45 * 3.141592653589793 / 180)`. -/
def thrust_compute_fx (sin_45 : K) (x_force : K) : thruster_set K :=
  let force_per_thruster := x_force / (4 * sin_45)
  let forces : thruster_set K := 0
  let forces := Function.update forces 4 (-force_per_thruster)
  let forces := Function.update forces 5 (-force_per_thruster)
  let forces := Function.update forces 6 (-force_per_thruster)
  let forces := Function.update forces 7 (-force_per_thruster)
  forces

/-- The method `Thruster_Commander::thrust_compute_fx_fy_mz` (lines 392-416). -/
def thrust_compute_fx_fy_mz (x_force y_force z_torque : K) : thruster_set K :=
  let inputs : Fin 6 → K := ![x_force, y_force, 0, 0, 0, z_torque]
  let coefficients : Matrix (Fin 8) (Fin 6) K :=
    !![-8.72533307e-02, 1.08905877e-01, 2.62141732e-01, -1.22850123e+00, -9.84251969e-01,
         4.77297359e-17;
       -8.72533307e-02, -1.08905877e-01, 2.62141732e-01, 1.22850123e+00, -9.84251969e-01,
         -9.09843115e-17;
       8.72533307e-02, 1.08905877e-01, 2.37858268e-01, -1.22850123e+00, 9.84251969e-01,
         -9.54417065e-17;
       8.72533307e-02, -1.08905877e-01, 2.37858268e-01, 1.22850123e+00, 9.84251969e-01,
         1.38809793e-16;
       -3.53553281e-01, -3.72516112e-01, 6.51614355e-18, 2.10534883e-16, 3.48410154e-18,
         -1.14326218e+00;
       -3.53553281e-01, 3.72516112e-01, -4.08974566e-18, -6.72643856e-17, -6.94539325e-18,
         1.14326218e+00;
       -3.53553281e-01, 3.34590450e-01, -4.95362255e-18, -1.01890400e-17, -4.07608820e-18,
         -1.14326218e+00;
       -3.53553281e-01, -3.34590450e-01, 7.38002044e-18, 2.75362748e-17, 6.14796494e-19,
         1.14326218e+00]
  let T : Fin 8 → K := coefficients.mulVec inputs
  T

/-! ## General solver (lines 438-453) -/

/-- Modelled from the spec: Eigen's `completeOrthogonalDecomposition().pseudoInverse()` is
library code that is not under `src/`.  The spec calls it the Moore-Penrose pseudoinverse; for
a 6x8 matrix `W` of full row rank that is `Wᵀ (W Wᵀ)⁻¹`, the inverse of the 6x6 Gram matrix
being its adjugate divided by its determinant. -/
def pseudoInverse (W : Matrix (Fin 6) (Fin 8) K) : Matrix (Fin 8) (Fin 6) K :=
  W.transpose * ((W * W.transpose).det⁻¹ • (W * W.transpose).adjugate)

/-- Modelled from the spec: the four Penrose conditions, which single out the Moore-Penrose
pseudoinverse `P` of `W` among all 8x6 matrices. -/
def IsMoorePenrose (W : Matrix (Fin 6) (Fin 8) K) (P : Matrix (Fin 8) (Fin 6) K) : Prop :=
  W * P * W = W ∧ P * W * P = P ∧ (W * P).transpose = W * P ∧ (P * W).transpose = P * W

/-- The method `Thruster_Commander::thrust_compute_general`. -/
def thrust_compute_general (tc : Thruster_Commander K)
    (x_force y_force z_force x_torque y_torque z_torque : K) : thruster_set K :=
  let forces : six_axis K := ![x_force, y_force, z_force, x_torque, y_torque, z_torque]
  let WInverse : Matrix (Fin 8) (Fin 6) K := pseudoInverse tc.wrench_matrix
  WInverse.mulVec forces

/-! ## Environmental forces (lines 214-292) -/

/-- The vector `three_axis::UnitX()`. -/
def UnitX : three_axis K := ![1, 0, 0]

/-- The vector `three_axis::UnitY()`. -/
def UnitY : three_axis K := ![0, 1, 0]

/-- The vector `three_axis::UnitZ()`. -/
def UnitZ : three_axis K := ![0, 0, 1]

/-- Modelled from the spec: Eigen's `AngleAxisf(angle, axis).toRotationMatrix()` is library
code that is not under `src/`.  The rotation about the unit vector `axis` by an angle whose
cosine is `c` and whose sine is `s` (Rodrigues' formula, as Eigen writes it). -/
def toRotationMatrix (c s : K) (axis : three_axis K) : Matrix (Fin 3) (Fin 3) K :=
  !![c + (1 - c) * axis 0 * axis 0, (1 - c) * axis 0 * axis 1 - s * axis 2,
       (1 - c) * axis 0 * axis 2 + s * axis 1;
     (1 - c) * axis 0 * axis 1 + s * axis 2, c + (1 - c) * axis 1 * axis 1,
       (1 - c) * axis 1 * axis 2 - s * axis 0;
     (1 - c) * axis 0 * axis 2 - s * axis 1, (1 - c) * axis 1 * axis 2 + s * axis 0,
       c + (1 - c) * axis 2 * axis 2]

/-- The three statements `v *= - Eigen::AngleAxisf(orientation(k), axis_k).toRotationMatrix()`
for the axes X, Y, Z in turn, on a row vector `v`; `cos` and `sin` are the functions of the C
math library. -/
def rotateNegated (cos sin : K → K) (orientation : three_axis K) (v : three_axis K) :
    three_axis K :=
  let v := vecMul v (-toRotationMatrix (cos (orientation 0)) (sin (orientation 0)) UnitX)
  let v := vecMul v (-toRotationMatrix (cos (orientation 1)) (sin (orientation 1)) UnitY)
  let v := vecMul v (-toRotationMatrix (cos (orientation 2)) (sin (orientation 2)) UnitZ)
  v

/-- The method `Thruster_Commander::weight_force`. -/
def weight_force (cos sin : K → K) (tc : Thruster_Commander K) (orientation : three_axis K) :
    six_axis K :=
  let result : six_axis K := 0
  let linear : three_axis K := tc.weight_magnitude • UnitZ
  let linear := rotateNegated cos sin orientation linear
  ![linear 0, linear 1, linear 2, result 3, result 4, result 5]

/-- The method `Thruster_Commander::bouyant_force`. -/
def bouyant_force (cos sin : K → K) (tc : Thruster_Commander K) (orientation : three_axis K) :
    six_axis K :=
  let bouyant_force_linear : three_axis K := tc.buoyant_magnitude • UnitZ
  let bouyant_force_linear := rotateNegated cos sin orientation bouyant_force_linear
  let bouyant_force_rotational : three_axis K :=
    cross bouyant_force_linear (tc.volume_center - tc.mass_center)
  ![bouyant_force_linear 0, bouyant_force_linear 1, bouyant_force_linear 2,
    bouyant_force_rotational 0, bouyant_force_rotational 1, bouyant_force_rotational 2]

/-- The method `Thruster_Commander::predict_drag_forces`. -/
def predict_drag_forces (tc : Thruster_Commander K) (velocity : six_axis K) : six_axis K :=
  let c_inf : Fin 6 → K := ![0.041, 0.05, 0.125, 0.005, 0.005, 0.005]
  (List.range 6).foldl
    (fun drag_force i =>
      if h : i < 6 then
        Function.update drag_force ⟨i, h⟩ (tc.rho_water * velocity ⟨i, h⟩ ^ 2 * c_inf ⟨i, h⟩)
      else drag_force) 0

/-! ## Top speed (lines 504-522) -/

/-- The force set that `top_speed_x` and `accel_time_x` build: `force_per_thruster` on the
angled thrusters 4..7 and zero elsewhere. -/
def angledForces (force_per_thruster : K) : thruster_set K :=
  let forces : thruster_set K := 0
  let forces := Function.update forces 4 force_per_thruster
  let forces := Function.update forces 5 force_per_thruster
  let forces := Function.update forces 6 force_per_thruster
  let forces := Function.update forces 7 force_per_thruster
  forces

/-- The method `Thruster_Commander::top_speed_x`; `sqrt` is the function of the C math library
and `abs` is the function that the unqualified call `abs(fx)` resolves to. -/
def top_speed_x (sqrt abs : K → K) (tc : Thruster_Commander K) (forward : Bool) : K :=
  let cd := tc.combined_drag_coefs 0
  let force_per_thruster := if forward then tc.min_thruster_force else tc.max_thruster_force
  let forces := angledForces force_per_thruster
  let fx := net_force_from_thrusters tc forces 0
  (fx / abs fx) * sqrt (abs fx / cd)

/-! ## Force to PWM lookup (lines 142-213) -/

/-- The ways in which `get_pwm` ends without a PWM value. -/
inductive PwmFailure where
  /-- The call `exit(42)` after "No corresponding PWM found.". -/
  | outOfRange
  /-- A read outside the table, or a read of `closestRowIndex` before any assignment. -/
  | undefinedBehaviour
  deriving DecidableEq

/-- The initial value of `smallestDifference`. -/
def INT_MAX : K := 2147483647

/-- The read `numericData[i]` of a row with an `int` index; `none` outside the table. -/
def readRow (numericData : List (Fin 7 → K)) (i : Int) : Option (Fin 7 → K) :=
  if i < 0 then none else numericData[i.toNat]?

/-- The function `determinePwmValue`; `none` when it reads outside the table. -/
def determinePwmValue (force : K) (numericData : List (Fin 7 → K)) (smallestDifference : K)
    (closestRowIndex : Int) : Option K :=
  if smallestDifference < 0 then do
    let r ← readRow numericData closestRowIndex
    let closestRowIndex ←
      if r 0 = 0 then do
        let r1 ← readRow numericData (closestRowIndex + 1)
        pure (if r1 0 = 0 then closestRowIndex + 1 else closestRowIndex)
      else pure closestRowIndex
    let a ← readRow numericData closestRowIndex
    let b ← readRow numericData (closestRowIndex + 1)
    let x1 := a 0
    let y1 := a 5
    let x2 := b 0
    let y2 := b 5
    pure (y1 + (force - x1) * ((y2 - y1) / (x2 - x1)))
  else if smallestDifference > 0 then do
    let r ← readRow numericData closestRowIndex
    let closestRowIndex ←
      if r 0 = 0 then do
        let r1 ← readRow numericData (closestRowIndex - 1)
        pure (if r1 0 = 0 then closestRowIndex - 1 else closestRowIndex)
      else pure closestRowIndex
    let a ← readRow numericData (closestRowIndex - 1)
    let b ← readRow numericData closestRowIndex
    let x1 := a 0
    let y1 := a 5
    let x2 := b 0
    let y2 := b 5
    pure (y1 + (force - x1) * ((y2 - y1) / (x2 - x1)))
  else do
    let r ← readRow numericData closestRowIndex
    pure (r 5)

/-- The nearest-row loop of `get_pwm`, run over the rows from index `i` on; the state is
`(smallestDifference, closestRowIndex)`, the index being `none` before any assignment. -/
def searchLoop (force : K) : List (Fin 7 → K) → Nat → K × Option Int → K × Option Int
  | [], _, st => st
  | row :: rest, i, (smallestDifference, closestRowIndex) =>
    let difference := row 0 - force
    if |difference| < |smallestDifference| then
      searchLoop force rest (i + 1) (difference, some (i : Int))
    else
      searchLoop force rest (i + 1) (smallestDifference, closestRowIndex)

/-- Lines 200-212 of `get_pwm`: the nearest-row search followed by `determinePwmValue`. -/
def nearestRowLookup (numericData : List (Fin 7 → K)) (force : K) : Except PwmFailure K :=
  match searchLoop force numericData 0 (INT_MAX, none) with
  | (smallestDifference, some closestRowIndex) =>
    match determinePwmValue force numericData smallestDifference closestRowIndex with
    | some pwmValue => Except.ok pwmValue
    | none => Except.error PwmFailure.undefinedBehaviour
  | (_, none) => Except.error PwmFailure.undefinedBehaviour

/-- The method `Thruster_Commander::get_pwm`; `numericData` is the table that `parseCsv` filled, with
`csvRows = numericData.length` rows of `csvColumns = 7` columns. -/
def get_pwm (numericData : List (Fin 7 → K)) (_thruster_num : Int) (force : K) :
    Except PwmFailure K :=
  let csvRows : Int := numericData.length
  match readRow numericData 0, readRow numericData (csvRows - 1) with
  | some first, some last =>
    if force < first 0 then Except.error PwmFailure.outOfRange
    else if force > last 0 then Except.error PwmFailure.outOfRange
    else nearestRowLookup numericData force
  | _, _ => Except.error PwmFailure.undefinedBehaviour

/-- A table row with force `f` in column 0 and PWM value `p` in column 5. -/
def sampleRow (f p : ℚ) : Fin 7 → ℚ := ![f, 0, 0, 0, 0, p, 0]

/-- A small calibration table sorted by force, with a repeated zero-force row. -/
def sampleTable : List (Fin 7 → ℚ) :=
  [sampleRow (-3) 1100, sampleRow (-1) 1300, sampleRow 0 1464, sampleRow 0 1536,
   sampleRow 2 1700, sampleRow 4 1900]

/-- The two rows `(x1, y1)` and `(x2, y2)` that `determinePwmValue` interpolates between in
its first two branches; `none` in the third branch and when a read falls outside the table. -/
def selectedRows (numericData : List (Fin 7 → K)) (smallestDifference : K)
    (closestRowIndex : Int) : Option ((Fin 7 → K) × (Fin 7 → K)) :=
  if smallestDifference < 0 then do
    let r ← readRow numericData closestRowIndex
    let closestRowIndex ←
      if r 0 = 0 then do
        let r1 ← readRow numericData (closestRowIndex + 1)
        pure (if r1 0 = 0 then closestRowIndex + 1 else closestRowIndex)
      else pure closestRowIndex
    let a ← readRow numericData closestRowIndex
    let b ← readRow numericData (closestRowIndex + 1)
    pure (a, b)
  else if smallestDifference > 0 then do
    let r ← readRow numericData closestRowIndex
    let closestRowIndex ←
      if r 0 = 0 then do
        let r1 ← readRow numericData (closestRowIndex - 1)
        pure (if r1 0 = 0 then closestRowIndex - 1 else closestRowIndex)
      else pure closestRowIndex
    let a ← readRow numericData (closestRowIndex - 1)
    let b ← readRow numericData closestRowIndex
    pure (a, b)
  else none

/-- A sorted table whose largest force 0 is the force of its last two rows. -/
def repeatedMaxTable : List (Fin 7 → ℚ) :=
  [sampleRow (-2) 1100, sampleRow 0 1464, sampleRow 0 1536]

/-- A small calibration table with strictly increasing forces. -/
def strictTable : List (Fin 7 → ℚ) :=
  [sampleRow (-3) 1100, sampleRow (-1) 1300, sampleRow 0 1500, sampleRow 2 1700,
   sampleRow 4 1900]

/-- A table with three consecutive zero-force rows. -/
def tripleZeroTable : List (Fin 7 → ℚ) :=
  [sampleRow (-1) 1300, sampleRow 0 1464, sampleRow 0 1500, sampleRow 0 1536,
   sampleRow 2 1700]

/-- A table with strictly increasing forces whose rows are farther than `INT_MAX` from 0. -/
def wideTable : List (Fin 7 → ℚ) :=
  [sampleRow (-3000000000) 1100, sampleRow 3000000000 1900]

/-- The value stored by `float sin45 = sin(45 * PI / 180)`: the binary32 number nearest to
the square root of 2 divided by 2, namely `11863283 / 2 ^ 24`. -/
def sin45_float : ℚ := 11863283 / 16777216

/-! ## Basic facts about the embedding -/

section VecNotation

variable {α : Type}

/-- Entry 1 of a vector written with at least two leading entries. -/
theorem vecCons_val_one {n : Nat} (a0 a1 : α) (t : Fin n → α) :
    (vecCons a0 (vecCons a1 t) : Fin (n + 2) → α) 1 = a1 := rfl

/-- Entry 2 of a vector written with at least three leading entries. -/
theorem vecCons_val_two {n : Nat} (a0 a1 a2 : α) (t : Fin n → α) :
    (vecCons a0 (vecCons a1 (vecCons a2 t)) : Fin (n + 3) → α) 2 = a2 := rfl

/-- Entry 3 of a vector written with at least four leading entries. -/
theorem vecCons_val_three {n : Nat} (a0 a1 a2 a3 : α) (t : Fin n → α) :
    (vecCons a0 (vecCons a1 (vecCons a2 (vecCons a3 t))) : Fin (n + 4) → α) 3 = a3 := rfl

/-- Entry 4 of a vector written with at least five leading entries. -/
theorem vecCons_val_four {n : Nat} (a0 a1 a2 a3 a4 : α) (t : Fin n → α) :
    (vecCons a0 (vecCons a1 (vecCons a2 (vecCons a3 (vecCons a4 t)))) :
      Fin (n + 5) → α) 4 = a4 := rfl

/-- Entry 5 of a vector written with at least six leading entries. -/
theorem vecCons_val_five {n : Nat} (a0 a1 a2 a3 a4 a5 : α) (t : Fin n → α) :
    (vecCons a0 (vecCons a1 (vecCons a2 (vecCons a3 (vecCons a4 (vecCons a5 t))))) :
      Fin (n + 6) → α) 5 = a5 := rfl

/-- Entry 6 of a vector written with at least seven leading entries. -/
theorem vecCons_val_six {n : Nat} (a0 a1 a2 a3 a4 a5 a6 : α) (t : Fin n → α) :
    (vecCons a0 (vecCons a1 (vecCons a2 (vecCons a3 (vecCons a4 (vecCons a5
      (vecCons a6 t)))))) : Fin (n + 7) → α) 6 = a6 := rfl

/-- Entry 7 of a vector written with at least eight leading entries. -/
theorem vecCons_val_seven {n : Nat} (a0 a1 a2 a3 a4 a5 a6 a7 : α) (t : Fin n → α) :
    (vecCons a0 (vecCons a1 (vecCons a2 (vecCons a3 (vecCons a4 (vecCons a5
      (vecCons a6 (vecCons a7 t))))))) : Fin (n + 8) → α) 7 = a7 := rfl

end VecNotation

/-- The forces returned by `thrust_compute_fz`, listed. -/
theorem thrust_compute_fz_eq (z : K) :
    thrust_compute_fz z = ![z / 4, z / 4, z / 4, z / 4, 0, 0, 0, 0] := by
  funext i
  fin_cases i <;> simp [thrust_compute_fz, Function.update] <;> rfl

/-- The forces returned by `thrust_compute_fy`, listed. -/
theorem thrust_compute_fy_eq (s y : K) :
    thrust_compute_fy s y
      = ![0, 0, 0, 0, -(y / (4 * s)), y / (4 * s), y / (4 * s), -(y / (4 * s))] := by
  funext i
  fin_cases i <;> simp [thrust_compute_fy, Function.update] <;> rfl

/-- The forces returned by `thrust_compute_fx`, listed. -/
theorem thrust_compute_fx_eq (s x : K) :
    thrust_compute_fx s x
      = ![0, 0, 0, 0, -(x / (4 * s)), -(x / (4 * s)), -(x / (4 * s)), -(x / (4 * s))] := by
  funext i
  fin_cases i <;> simp [thrust_compute_fx, Function.update] <;> rfl

/-- Unfolding of the row-assignment loop over all eight rows. -/
theorem assignRows_eight {m : Type} (rows : Fin 8 → m → K) (M : Matrix (Fin 8) m K) :
    assignRows 8 rows M = rows := by
  funext i
  fin_cases i <;> simp [assignRows, List.range_succ, Function.update]

/-- The torque rows computed by the constructor. -/
theorem construct_thruster_torques (s : K) (i : Fin 8) :
    (construct s).thruster_torques i
      = cross ((construct s).thruster_moment_arms i) ((construct s).thruster_directions i) := by
  simp [construct, assignRows_eight]

/-- The rows of `wrench_matrix_transposed` computed by the constructor. -/
theorem construct_wrench_matrix_transposed (s : K) (i : Fin 8) :
    (construct s).wrench_matrix_transposed i
      = segments ((construct s).thruster_directions i) ((construct s).thruster_torques i) := by
  simp [construct, assignRows_eight]


/-- The wrench matrix of the reference geometry, entry by entry. -/
theorem construct_wrench_matrix (s : K) :
    (construct s).wrench_matrix =
      !![0, 0, 0, 0, -s, -s, -s, -s;
         0, 0, 0, 0, -s, s, s, -s;
         1, 1, 1, 1, 0, 0, 0, 0;
         -0.2035, 0.2035, -0.2035, 0.2035,
           -0.0886494 * s, 0.0886494 * s, 0.0886494 * s, -0.0886494 * s;
         -0.2416636, -0.2416636, 0.2663364, 0.2663364,
           0.0886494 * s, 0.0886494 * s, 0.0886494 * s, 0.0886494 * s;
         0, 0, 0, 0, -0.2926636 * s, 0.2926636 * s, -0.3258364 * s, 0.3258364 * s] := by
  ext i j
  show (construct s).wrench_matrix_transposed j i = _
  rw [construct_wrench_matrix_transposed, construct_thruster_torques]
  fin_cases i <;> fin_cases j <;>
    simp only [construct, segments, cross, reference_positions, reference_directions,
      Fin.reduceFinMk, Fin.isValue, Fin.zero_eta, Fin.mk_one, Matrix.of_apply,
      cons_val_zero, vecCons_val_one, vecCons_val_two, vecCons_val_three, vecCons_val_four,
      vecCons_val_five, vecCons_val_six, vecCons_val_seven] <;>
    norm_num <;> ring

/-- The wrench predicted for a force set on the reference geometry, component by component. -/
theorem net_force_construct (s : K) (f : thruster_set K) :
    net_force_from_thrusters (construct s) f =
      ![-s * (f 4 + f 5 + f 6 + f 7),
        s * (-f 4 + f 5 + f 6 - f 7),
        f 0 + f 1 + f 2 + f 3,
        0.2035 * (-f 0 + f 1 - f 2 + f 3) + 0.0886494 * s * (-f 4 + f 5 + f 6 - f 7),
        -0.2416636 * (f 0 + f 1) + 0.2663364 * (f 2 + f 3)
          + 0.0886494 * s * (f 4 + f 5 + f 6 + f 7),
        s * (0.2926636 * (-f 4 + f 5) + 0.3258364 * (-f 6 + f 7))] := by
  funext j
  rw [net_force_from_thrusters, construct_wrench_matrix]
  fin_cases j <;>
    simp only [mulVec, dotProduct, Fin.sum_univ_eight,
      Fin.reduceFinMk, Fin.isValue, Fin.zero_eta, Fin.mk_one, Matrix.of_apply,
      cons_val_zero, vecCons_val_one, vecCons_val_two, vecCons_val_three, vecCons_val_four,
      vecCons_val_five, vecCons_val_six, vecCons_val_seven] <;>
    ring

/-- The two segments of a row are its direction part followed by its torque part. -/
theorem segments_eq_append (d t : three_axis K) : segments d t = Fin.append d t := by
  funext j
  fin_cases j <;> rfl

/-- The loop of `compute_forces` over the eight thrusters is a sum. -/
theorem compute_forces_construct (s : K) (f : Fin 8 → K) :
    compute_forces (construct s) f = ∑ i, f i • (construct s).thruster_directions i := by
  have h8 : (construct s).num_thrusters = 8 := rfl
  simp [compute_forces, h8, List.range_succ, Fin.sum_univ_eight]

/-- The loop of `compute_torques` over the eight thrusters is a sum. -/
theorem compute_torques_construct (s : K) (f : Fin 8 → K) :
    compute_torques (construct s) f = ∑ i, f i • (construct s).thruster_torques i := by
  have h8 : (construct s).num_thrusters = 8 := rfl
  simp [compute_torques, h8, List.range_succ, Fin.sum_univ_eight]

/-- A vector orthogonal to all eight columns of the reference wrench matrix is zero. -/
theorem wrench_transpose_injective (s : K) (hs : s ≠ 0) (x : Fin 6 → K)
    (h : (construct s).wrench_matrix.transpose.mulVec x = 0) : x = 0 := by
  rw [construct_wrench_matrix] at h
  have e := fun i => congrFun h i
  have e0 := e 0
  have e1 := e 1
  have e2 := e 2
  have e4 := e 4
  have e5 := e 5
  have e6 := e 6
  simp only [mulVec, dotProduct, Fin.sum_univ_six, transpose_apply, Pi.zero_apply,
    Fin.isValue, Matrix.of_apply,
    cons_val_zero, vecCons_val_one, vecCons_val_two, vecCons_val_three, vecCons_val_four,
    vecCons_val_five, vecCons_val_six, vecCons_val_seven] at e0 e1 e2 e4 e5 e6
  clear h e
  have x3 : x 3 = 0 := by linarith only [e0, e1]
  have x4 : x 4 = 0 := by linarith only [e0, e2]
  have x2 : x 2 = 0 := by linarith only [e0, x3, x4]
  rw [x3, x4] at e4 e5 e6
  have x5 : x 5 = 0 := by
    have : s * (0.6185 * x 5) = s * 0 := by linear_combination e5 - e6
    have h' := mul_left_cancel₀ hs this
    linarith only [h']
  rw [x5] at e4 e5
  have x0 : x 0 = 0 := by
    have : s * (-2 * x 0) = s * 0 := by linear_combination e4 + e5
    have h' := mul_left_cancel₀ hs this
    linarith only [h']
  have x1 : x 1 = 0 := by
    have : s * (2 * x 1) = s * 0 := by linear_combination e5 - e4
    have h' := mul_left_cancel₀ hs this
    linarith only [h']
  funext j
  fin_cases j <;> simp [x0, x1, x2, x3, x4, x5]

/-- The Gram matrix of the reference wrench matrix is invertible: the matrix has full row
rank 6. -/
theorem wrench_gram_det_ne_zero (s : K) (hs : s ≠ 0) :
    ((construct s).wrench_matrix * (construct s).wrench_matrix.transpose).det ≠ 0 := by
  intro hdet
  obtain ⟨v, hv, hmul⟩ := Matrix.exists_mulVec_eq_zero_iff.mpr hdet
  apply hv
  apply wrench_transpose_injective s hs
  rw [← dotProduct_self_eq_zero]
  calc (construct s).wrench_matrix.transpose.mulVec v
          ⬝ᵥ (construct s).wrench_matrix.transpose.mulVec v
      = (v ᵥ* (construct s).wrench_matrix)
          ⬝ᵥ (construct s).wrench_matrix.transpose.mulVec v := by rw [mulVec_transpose]
    _ = v ⬝ᵥ (construct s).wrench_matrix.mulVec
          ((construct s).wrench_matrix.transpose.mulVec v) := (dotProduct_mulVec _ _ _).symm
    _ = v ⬝ᵥ ((construct s).wrench_matrix * (construct s).wrench_matrix.transpose).mulVec v := by
        rw [mulVec_mulVec]
    _ = 0 := by rw [hmul, dotProduct_zero]

/-- A matrix with invertible Gram matrix times its pseudoinverse is the identity. -/
theorem mul_pseudoInverse (W : Matrix (Fin 6) (Fin 8) K)
    (h : (W * W.transpose).det ≠ 0) : W * pseudoInverse W = 1 := by
  rw [pseudoInverse, ← Matrix.mul_assoc, Matrix.mul_smul, mul_adjugate, smul_smul,
    inv_mul_cancel₀ h, one_smul]

/-- With an invertible Gram matrix, `pseudoInverse` satisfies the four Penrose conditions: it
is the Moore-Penrose pseudoinverse. -/
theorem pseudoInverse_isMoorePenrose (W : Matrix (Fin 6) (Fin 8) K)
    (h : (W * W.transpose).det ≠ 0) : IsMoorePenrose W (pseudoInverse W) := by
  have h1 := mul_pseudoInverse W h
  refine ⟨by rw [h1, Matrix.one_mul], by rw [Matrix.mul_assoc, h1, Matrix.mul_one],
    by rw [h1, transpose_one], ?_⟩
  have hG : (W * W.transpose).transpose = W * W.transpose := by
    rw [transpose_mul, transpose_transpose]
  rw [pseudoInverse, transpose_mul, transpose_mul, transpose_transpose, transpose_smul,
    adjugate_transpose, hG, Matrix.mul_assoc]

/-- The reference wrench matrix has full row rank 6. -/
theorem wrench_matrix_rank (s : K) (hs : s ≠ 0) : (construct s).wrench_matrix.rank = 6 := by
  rw [← rank_self_mul_transpose]
  have hu : IsUnit ((construct s).wrench_matrix * (construct s).wrench_matrix.transpose) :=
    (Matrix.isUnit_iff_isUnit_det _).mpr (wrench_gram_det_ne_zero s hs).isUnit
  rw [rank_of_isUnit _ hu]
  rfl

/-- The general solver reproduces every wrench on the reference geometry. -/
theorem net_force_thrust_compute_general (s : K) (hs : s ≠ 0) (fx fy fz mx my mz : K) :
    net_force_from_thrusters (construct s)
        (thrust_compute_general (construct s) fx fy fz mx my mz)
      = ![fx, fy, fz, mx, my, mz] := by
  rw [net_force_from_thrusters, thrust_compute_general, mulVec_mulVec,
    mul_pseudoInverse _ (wrench_gram_det_ne_zero s hs), one_mulVec]

/-- A number between -18 and 18 has square at most 324. -/
theorem sq_le_of_bounds (a : K) (h1 : -18 ≤ a) (h2 : a ≤ 18) : a ^ 2 ≤ 324 := by
  nlinarith only [mul_nonneg (sub_nonneg.2 h2) (sub_nonneg.2 h1)]

/-- If every thruster force lies in `[-3.5, 4.5]`, the squared magnitude of the linear force
predicted on the reference geometry is at most 648, provided the angled direction vectors are
no longer than unit length. -/
theorem linear_force_sq_le (s : K) (hs2 : 2 * s ^ 2 ≤ 1) (g : thruster_set K)
    (hg : ∀ i, -3.5 ≤ g i ∧ g i ≤ 4.5) :
    net_force_from_thrusters (construct s) g 0 ^ 2
      + net_force_from_thrusters (construct s) g 1 ^ 2
      + net_force_from_thrusters (construct s) g 2 ^ 2 ≤ 648 := by
  rw [net_force_construct]
  simp only [Fin.isValue, cons_val_zero, vecCons_val_one, vecCons_val_two]
  have g0 := hg 0
  have g1 := hg 1
  have g2 := hg 2
  have g3 := hg 3
  have g4 := hg 4
  have g5 := hg 5
  have g6 := hg 6
  have g7 := hg 7
  have hA : (g 4 + g 5 + g 6 + g 7) ^ 2 ≤ 324 :=
    sq_le_of_bounds _ (by linarith only [g4, g5, g6, g7]) (by linarith only [g4, g5, g6, g7])
  have hB : (-g 4 + g 5 + g 6 - g 7) ^ 2 ≤ 324 :=
    sq_le_of_bounds _ (by linarith only [g4, g5, g6, g7]) (by linarith only [g4, g5, g6, g7])
  have hC : (g 0 + g 1 + g 2 + g 3) ^ 2 ≤ 324 :=
    sq_le_of_bounds _ (by linarith only [g0, g1, g2, g3]) (by linarith only [g0, g1, g2, g3])
  have hsA := mul_le_mul_of_nonneg_left hA (sq_nonneg s)
  have hsB := mul_le_mul_of_nonneg_left hB (sq_nonneg s)
  have e1 : (-s * (g 4 + g 5 + g 6 + g 7)) ^ 2 = s ^ 2 * (g 4 + g 5 + g 6 + g 7) ^ 2 := by ring
  have e2 : (s * (-g 4 + g 5 + g 6 - g 7)) ^ 2 = s ^ 2 * (-g 4 + g 5 + g 6 - g 7) ^ 2 := by
    ring
  rw [e1, e2]
  nlinarith only [hsA, hsB, hC, hs2]

/-! ### The lookup -/

/-- Once the smallest difference is zero the loop changes nothing. -/
theorem searchLoop_zero (force : K) (rows : List (Fin 7 → K)) (i : Nat) (idx : Option Int) :
    searchLoop force rows i (0, idx) = (0, idx) := by
  induction rows generalizing i with
  | nil => rfl
  | cons row rest ih =>
    have h : ¬ |row 0 - force| < |(0 : K)| := by
      rw [abs_zero]
      exact not_lt.mpr (abs_nonneg _)
    simp only [searchLoop, h, if_false]
    exact ih (i + 1)

/-- If some row has exactly the requested force, the loop ends on the first such row with
difference zero. -/
theorem searchLoop_exact (force : K) (rows : List (Fin 7 → K)) :
    ∀ (i : Nat) (sd : K) (idx : Option Int), sd ≠ 0 → (∃ row ∈ rows, row 0 = force) →
      ∃ (k : Nat) (row : Fin 7 → K), rows[k]? = some row ∧ row 0 = force ∧
        (∀ j r, j < k → rows[j]? = some r → r 0 ≠ force) ∧
        searchLoop force rows i (sd, idx) = (0, some ((i + k : Nat) : Int)) := by
  induction rows with
  | nil =>
    intro i sd idx _ h
    obtain ⟨row, hrow, _⟩ := h
    simp at hrow
  | cons r rest ih =>
    intro i sd idx hsd h
    by_cases hr : r 0 = force
    · refine ⟨0, r, by simp, hr, fun j _ hj => absurd hj (Nat.not_lt_zero j), ?_⟩
      have hlt : |r 0 - force| < |sd| := by
        rw [hr, sub_self, abs_zero]
        exact abs_pos.mpr hsd
      simp only [searchLoop, hlt, if_true]
      rw [hr, sub_self, searchLoop_zero]
      rfl
    · have hrest : ∃ row ∈ rest, row 0 = force := by
        obtain ⟨row, hrow, hf⟩ := h
        rcases List.mem_cons.mp hrow with h1 | h1
        · exact absurd (h1 ▸ hf) hr
        · exact ⟨row, h1, hf⟩
      have hd : r 0 - force ≠ 0 := sub_ne_zero.mpr hr
      have step : ∀ st : K × Option Int, st.1 ≠ 0 →
          ∃ (k : Nat) (row : Fin 7 → K), (r :: rest)[k]? = some row ∧ row 0 = force ∧
            (∀ j r', j < k → (r :: rest)[j]? = some r' → r' 0 ≠ force) ∧
            searchLoop force rest (i + 1) st = (0, some ((i + k : Nat) : Int)) := by
        intro st hst
        obtain ⟨k, row, hk, hf, hfirst, hres⟩ := ih (i + 1) st.1 st.2 hst hrest
        refine ⟨k + 1, row, by simpa using hk, hf, ?_, ?_⟩
        · intro j r' hj hr'
          cases j with
          | zero =>
            simp at hr'
            rw [← hr']
            exact hr
          | succ j =>
            exact hfirst j r' (by omega) (by simpa using hr')
        · rw [hres]
          congr 3
          omega
      by_cases hlt : |r 0 - force| < |sd|
      · simp only [searchLoop, hlt, if_true]
        exact step (r 0 - force, some (i : Int)) hd
      · simp only [searchLoop, hlt, if_false]
        exact step (sd, idx) hsd

/-- Reading row 0 of a table with at least one row. -/
theorem readRow_zero (numericData : List (Fin 7 → K)) (hne : numericData ≠ []) :
    readRow numericData 0 = some (numericData.head hne) := by
  cases numericData with
  | nil => exact absurd rfl hne
  | cons a l => simp [readRow]

/-- Reading a row at a natural-number index. -/
theorem readRow_natCast (numericData : List (Fin 7 → K)) (k : Nat) :
    readRow numericData (k : Int) = numericData[k]? := by
  simp [readRow]

/-- Reading row `csvRows - 1` of a table with at least one row. -/
theorem readRow_last (numericData : List (Fin 7 → K)) (hne : numericData ≠ []) :
    readRow numericData ((numericData.length : Int) - 1) = some (numericData.getLast hne) := by
  have hlen : 0 < numericData.length := List.length_pos.mpr hne
  have e : ((numericData.length : Int) - 1) = ((numericData.length - 1 : Nat) : Int) := by
    omega
  rw [e, readRow_natCast, List.getLast_eq_getElem,
    List.getElem?_eq_getElem (by omega : numericData.length - 1 < numericData.length)]

/-- The two range checks of `get_pwm` on a table with at least one row. -/
theorem get_pwm_eq (numericData : List (Fin 7 → K)) (hne : numericData ≠ []) (n : Int)
    (force : K) :
    get_pwm numericData n force =
      if force < (numericData.head hne) 0 then Except.error PwmFailure.outOfRange
      else if force > (numericData.getLast hne) 0 then Except.error PwmFailure.outOfRange
      else nearestRowLookup numericData force := by
  simp only [get_pwm, readRow_zero numericData hne, readRow_last numericData hne]

/-- In a table sorted by force no row has a force below that of the first row. -/
theorem head_force_le (numericData : List (Fin 7 → K)) (hne : numericData ≠ [])
    (hsorted : numericData.Sorted (fun a b => a 0 ≤ b 0)) (row : Fin 7 → K)
    (hrow : row ∈ numericData) : (numericData.head hne) 0 ≤ row 0 := by
  cases numericData with
  | nil => exact absurd rfl hne
  | cons a l =>
    rcases List.mem_cons.mp hrow with h | h
    · rw [h]; exact le_refl _
    · exact List.rel_of_sorted_cons hsorted row h

/-- In a table sorted by force no row has a force above that of the last row. -/
theorem force_le_last (numericData : List (Fin 7 → K)) (hne : numericData ≠ [])
    (hsorted : numericData.Sorted (fun a b => a 0 ≤ b 0)) (row : Fin 7 → K)
    (hrow : row ∈ numericData) : row 0 ≤ (numericData.getLast hne) 0 := by
  have hsplit := List.dropLast_append_getLast hne
  rw [← hsplit] at hrow hsorted
  rcases List.mem_append.mp hrow with h | h
  · exact (List.pairwise_append.mp hsorted).2.2 row h _ (List.mem_singleton.mpr rfl)
  · rw [List.mem_singleton.mp h]

/-- The lookup at a force that some row has exactly: the command of the first such row. -/
theorem nearestRowLookup_exact (numericData : List (Fin 7 → K)) (force : K)
    (h : ∃ row ∈ numericData, row 0 = force) :
    ∃ (k : Nat) (row : Fin 7 → K), numericData[k]? = some row ∧ row 0 = force ∧
      (∀ j r, j < k → numericData[j]? = some r → r 0 ≠ force) ∧
      nearestRowLookup numericData force = Except.ok (row 5) := by
  have hmax : (INT_MAX : K) ≠ 0 := by norm_num [INT_MAX]
  obtain ⟨k, row, hk, hf, hfirst, hres⟩ := searchLoop_exact force numericData 0 INT_MAX none hmax h
  refine ⟨k, row, hk, hf, hfirst, ?_⟩
  have hdet : determinePwmValue force numericData 0 ((0 + k : Nat) : Int) = some (row 5) := by
    simp [determinePwmValue, readRow_natCast, hk]
  simp only [nearestRowLookup, hres, hdet]

/-- The lookup after the range checks never reports the out-of-range error. -/
theorem nearestRowLookup_ne_outOfRange (numericData : List (Fin 7 → K)) (force : K) :
    nearestRowLookup numericData force ≠ Except.error PwmFailure.outOfRange := by
  unfold nearestRowLookup
  split
  · split <;> simp
  · simp

/-- The sample table is sorted by force. -/
theorem sampleTable_sorted : sampleTable.Sorted (fun a b => a 0 ≤ b 0) := by
  simp only [sampleTable, List.Sorted, List.pairwise_cons, List.mem_cons, forall_eq_or_imp,
    List.mem_singleton, forall_eq, List.not_mem_nil, false_implies, implies_true,
    List.Pairwise.nil, and_true, sampleRow, cons_val_zero]
  norm_num

/-- The wrenches predicted for the three single-axis solvers, restricted to the components
`fx`, `fy`, `fz` (and `mz` for heave and surge). -/
theorem single_axis_wrenches (s : K) (hs : s ≠ 0) (x y z : K) :
    (net_force_from_thrusters (construct s) (thrust_compute_fz z) 0 = 0 ∧
      net_force_from_thrusters (construct s) (thrust_compute_fz z) 1 = 0 ∧
      net_force_from_thrusters (construct s) (thrust_compute_fz z) 2 = z ∧
      net_force_from_thrusters (construct s) (thrust_compute_fz z) 5 = 0) ∧
    (net_force_from_thrusters (construct s) (thrust_compute_fx s x) 0 = x ∧
      net_force_from_thrusters (construct s) (thrust_compute_fx s x) 1 = 0 ∧
      net_force_from_thrusters (construct s) (thrust_compute_fx s x) 2 = 0 ∧
      net_force_from_thrusters (construct s) (thrust_compute_fx s x) 5 = 0) ∧
    (net_force_from_thrusters (construct s) (thrust_compute_fy s y) 0 = 0 ∧
      net_force_from_thrusters (construct s) (thrust_compute_fy s y) 1 = y ∧
      net_force_from_thrusters (construct s) (thrust_compute_fy s y) 2 = 0) := by
  rw [net_force_construct, net_force_construct, net_force_construct, thrust_compute_fz_eq,
    thrust_compute_fx_eq, thrust_compute_fy_eq]
  simp only [Fin.isValue, cons_val_zero, vecCons_val_one, vecCons_val_two, vecCons_val_three,
    vecCons_val_four, vecCons_val_five, vecCons_val_six, vecCons_val_seven]
  refine ⟨⟨?_, ?_, ?_, ?_⟩, ⟨?_, ?_, ?_, ?_⟩, ⟨?_, ?_, ?_⟩⟩ <;> field_simp <;> ring

/-! ### Environmental forces and top speed -/

/-- Each component of the drag vector, as the loop assigns it. -/
theorem predict_drag_forces_apply (tc : Thruster_Commander K) (velocity : six_axis K)
    (i : Fin 6) :
    predict_drag_forces tc velocity i
      = tc.rho_water * velocity i ^ 2
          * (![0.041, 0.05, 0.125, 0.005, 0.005, 0.005] : Fin 6 → K) i := by
  fin_cases i <;> simp [predict_drag_forces, List.range_succ, Function.update]

/-- The three negated rotations applied to a vertical row vector `(0, 0, m)`. -/
theorem rotateNegated_vertical (cos sin : K → K) (o : three_axis K) (m : K) :
    rotateNegated cos sin o (m • UnitZ)
      = ![-m * (-(cos (o 0) * sin (o 1) * cos (o 2)) + sin (o 0) * sin (o 2)),
          -m * (cos (o 0) * sin (o 1) * sin (o 2) + sin (o 0) * cos (o 2)),
          -m * (cos (o 0) * cos (o 1))] := by
  funext j
  fin_cases j <;>
    simp [rotateNegated, toRotationMatrix, UnitX, UnitY, UnitZ, vecMul, dotProduct,
      Fin.sum_univ_three] <;>
    ring

/-- The force set of `top_speed_x`, listed. -/
theorem angledForces_eq (f : K) : angledForces f = ![0, 0, 0, 0, f, f, f, f] := by
  funext i
  fin_cases i <;> simp [angledForces, Function.update] <;> rfl

/-- Every component of the drag vector is nonnegative. -/
theorem predict_drag_forces_nonneg (s : K) (v : six_axis K) (i : Fin 6) :
    0 ≤ predict_drag_forces (construct s) v i := by
  have hrho : (construct s).rho_water = 1025 := rfl
  rw [predict_drag_forces_apply, hrho]
  have hc : (0 : K) ≤ (![0.041, 0.05, 0.125, 0.005, 0.005, 0.005] : Fin 6 → K) i := by
    fin_cases i <;>
      simp only [Fin.reduceFinMk, Fin.isValue, Fin.zero_eta, Fin.mk_one, cons_val_zero,
        vecCons_val_one, vecCons_val_two, vecCons_val_three, vecCons_val_four,
        vecCons_val_five] <;>
      norm_num
  positivity

/-! ### Interpolation in a table with strictly increasing forces -/

/-- In a table sorted strictly by force, a row at a smaller index has a smaller force. -/
theorem force_lt_of_index_lt (numericData : List (Fin 7 → K))
    (hsorted : numericData.Sorted (fun a b => a 0 < b 0)) (i j : Nat) (a b : Fin 7 → K)
    (ha : numericData[i]? = some a) (hb : numericData[j]? = some b) (hij : i < j) :
    a 0 < b 0 := by
  obtain ⟨hi, rfl⟩ := List.getElem?_eq_some.mp ha
  obtain ⟨hj, rfl⟩ := List.getElem?_eq_some.mp hb
  exact List.pairwise_iff_getElem.mp hsorted i j hi hj hij

/-- The state after the nearest-row loop: its difference is no farther from zero than that of
any row visited and than the initial one, and either nothing was assigned or the state is the
difference and index of a visited row. -/
theorem searchLoop_spec (force : K) (rows : List (Fin 7 → K)) :
    ∀ (i : Nat) (sd : K) (idx : Option Int),
      (∀ row ∈ rows, |(searchLoop force rows i (sd, idx)).1| ≤ |row 0 - force|) ∧
      |(searchLoop force rows i (sd, idx)).1| ≤ |sd| ∧
      (searchLoop force rows i (sd, idx) = (sd, idx) ∨
        ∃ (k : Nat) (row : Fin 7 → K), rows[k]? = some row ∧
          searchLoop force rows i (sd, idx) = (row 0 - force, some ((i + k : Nat) : Int))) := by
  induction rows with
  | nil =>
    intro i sd idx
    exact ⟨fun row h => absurd h (List.not_mem_nil row), le_refl _, Or.inl rfl⟩
  | cons r rest ih =>
    intro i sd idx
    by_cases hlt : |r 0 - force| < |sd|
    · have hstep : searchLoop force (r :: rest) i (sd, idx)
          = searchLoop force rest (i + 1) (r 0 - force, some (i : Int)) := by
        simp only [searchLoop, hlt, if_true]
      rw [hstep]
      obtain ⟨h1, h2, h3⟩ := ih (i + 1) (r 0 - force) (some (i : Int))
      refine ⟨?_, le_of_lt (lt_of_le_of_lt h2 hlt), Or.inr ?_⟩
      · intro row hrow
        rcases List.mem_cons.mp hrow with h | h
        · rw [h]; exact h2
        · exact h1 row h
      · rcases h3 with h3 | ⟨k, row, hk, hres⟩
        · exact ⟨0, r, by simp, by rw [h3]; rfl⟩
        · refine ⟨k + 1, row, by simpa using hk, ?_⟩
          rw [hres]
          congr 3
          omega
    · have hstep : searchLoop force (r :: rest) i (sd, idx)
          = searchLoop force rest (i + 1) (sd, idx) := by
        simp only [searchLoop, hlt, if_false]
      rw [hstep]
      obtain ⟨h1, h2, h3⟩ := ih (i + 1) sd idx
      refine ⟨?_, h2, ?_⟩
      · intro row hrow
        rcases List.mem_cons.mp hrow with h | h
        · rw [h]; exact le_trans h2 (not_lt.mp hlt)
        · exact h1 row h
      · rcases h3 with h3 | ⟨k, row, hk, hres⟩
        · exact Or.inl h3
        · refine Or.inr ⟨k + 1, row, by simpa using hk, ?_⟩
          rw [hres]
          congr 3
          omega

/-- When some row is closer than `INT_MAX` to the force, the loop ends on a row that is
nearest to the force. -/
theorem searchLoop_nearest (force : K) (numericData : List (Fin 7 → K))
    (hnear : ∃ row ∈ numericData, |row 0 - force| < INT_MAX) :
    ∃ (k : Nat) (rk : Fin 7 → K), numericData[k]? = some rk ∧
      searchLoop force numericData 0 (INT_MAX, none) = (rk 0 - force, some (k : Int)) ∧
      ∀ row ∈ numericData, |rk 0 - force| ≤ |row 0 - force| := by
  obtain ⟨h1, _, h3⟩ := searchLoop_spec force numericData 0 INT_MAX none
  rcases h3 with h3 | ⟨k, rk, hk, hres⟩
  · exfalso
    obtain ⟨row, hrow, hlt⟩ := hnear
    have h := h1 row hrow
    rw [h3] at h
    have hpos : (0 : K) ≤ INT_MAX := by norm_num [INT_MAX]
    rw [abs_of_nonneg hpos] at h
    exact absurd hlt (not_lt.mpr h)
  · refine ⟨k, rk, hk, by rw [hres, Nat.zero_add], ?_⟩
    intro row hrow
    have h := h1 row hrow
    rw [hres] at h
    exact h

/-- The first branch of `determinePwmValue` on two adjacent rows with increasing forces. -/
theorem determinePwmValue_lower (force : K) (numericData : List (Fin 7 → K)) (i : Nat)
    (a b : Fin 7 → K) (ha : numericData[i]? = some a) (hb : numericData[i + 1]? = some b)
    (hab : a 0 < b 0) (hlt : a 0 - force < 0) :
    determinePwmValue force numericData (a 0 - force) (i : Int)
      = some (a 5 + (force - a 0) * ((b 5 - a 5) / (b 0 - a 0))) := by
  have hb' : readRow numericData ((i : Int) + 1) = some b := by
    have e : ((i : Int) + 1) = ((i + 1 : Nat) : Int) := by omega
    rw [e, readRow_natCast, hb]
  have ha' : readRow numericData (i : Int) = some a := by rw [readRow_natCast, ha]
  have hsel : ¬ (a 0 = 0 ∧ b 0 = 0) := by
    rintro ⟨h0, h1⟩
    rw [h0, h1] at hab
    exact lt_irrefl _ hab
  unfold determinePwmValue
  rw [if_pos hlt]
  simp only [ha', hb', Option.bind_eq_bind, Option.some_bind, Option.pure_def]
  by_cases h0 : a 0 = 0
  · have h1 : ¬ b 0 = 0 := fun h1 => hsel ⟨h0, h1⟩
    rw [if_pos h0, if_neg h1]
    simp only [ha', hb', Option.some_bind]
  · rw [if_neg h0]

/-- The second branch of `determinePwmValue` on two adjacent rows with increasing forces. -/
theorem determinePwmValue_upper (force : K) (numericData : List (Fin 7 → K)) (i : Nat)
    (a b : Fin 7 → K) (ha : numericData[i]? = some a) (hb : numericData[i + 1]? = some b)
    (hab : a 0 < b 0) (hgt : 0 < b 0 - force) :
    determinePwmValue force numericData (b 0 - force) ((i + 1 : Nat) : Int)
      = some (a 5 + (force - a 0) * ((b 5 - a 5) / (b 0 - a 0))) := by
  have hb' : readRow numericData ((i + 1 : Nat) : Int) = some b := by
    rw [readRow_natCast, hb]
  have ha' : readRow numericData (((i + 1 : Nat) : Int) - 1) = some a := by
    have e : (((i + 1 : Nat) : Int) - 1) = (i : Int) := by omega
    rw [e, readRow_natCast, ha]
  have hnlt : ¬ b 0 - force < 0 := not_lt.mpr (le_of_lt hgt)
  have hsel : ¬ (b 0 = 0 ∧ a 0 = 0) := by
    rintro ⟨h0, h1⟩
    rw [h0, h1] at hab
    exact lt_irrefl _ hab
  unfold determinePwmValue
  rw [if_neg hnlt, if_pos hgt]
  simp only [ha', hb', Option.bind_eq_bind, Option.some_bind, Option.pure_def]
  by_cases h0 : b 0 = 0
  · have h1 : ¬ a 0 = 0 := fun h1 => hsel ⟨h0, h1⟩
    rw [if_pos h0, if_neg h1]
    simp only [ha', hb', Option.some_bind]
  · rw [if_neg h0]

/-- In a table with strictly increasing forces, `get_pwm` at a force strictly between the
forces of two adjacent rows, one row being closer than `INT_MAX` to it, returns the linear
interpolation between these two rows. -/
theorem get_pwm_interpolates (numericData : List (Fin 7 → K))
    (hsorted : numericData.Sorted (fun a b => a 0 < b 0)) (thruster_num : Int) (force : K)
    (hnear : ∃ row ∈ numericData, |row 0 - force| < INT_MAX)
    (i : Nat) (a b : Fin 7 → K) (ha : numericData[i]? = some a)
    (hb : numericData[i + 1]? = some b) (h1 : a 0 < force) (h2 : force < b 0) :
    get_pwm numericData thruster_num force
      = Except.ok (a 5 + (force - a 0) * (b 5 - a 5) / (b 0 - a 0)) := by
  have hne : numericData ≠ [] := List.ne_nil_of_mem (List.getElem?_mem ha)
  have hle : numericData.Sorted (fun a b => a 0 ≤ b 0) :=
    List.Pairwise.imp (fun h => le_of_lt h) hsorted
  have hlo : ¬ force < (numericData.head hne) 0 :=
    not_lt.mpr (le_trans (head_force_le numericData hne hle a (List.getElem?_mem ha))
      (le_of_lt h1))
  have hhi : ¬ force > (numericData.getLast hne) 0 :=
    not_lt.mpr (le_trans (le_of_lt h2)
      (force_le_last numericData hne hle b (List.getElem?_mem hb)))
  have hab : a 0 < b 0 := lt_trans h1 h2
  obtain ⟨k, rk, hk, hres, hmin⟩ := searchLoop_nearest force numericData hnear
  have hmina := hmin a (List.getElem?_mem ha)
  have hminb := hmin b (List.getElem?_mem hb)
  rw [abs_of_neg (sub_neg.mpr h1)] at hmina
  rw [abs_of_pos (sub_pos.mpr h2)] at hminb
  have hval : determinePwmValue force numericData (rk 0 - force) (k : Int)
      = some (a 5 + (force - a 0) * ((b 5 - a 5) / (b 0 - a 0))) := by
    rcases lt_trichotomy k i with hki | hki | hki
    · exfalso
      have hlt := force_lt_of_index_lt numericData hsorted k i rk a hk ha hki
      rw [abs_of_neg (sub_neg.mpr (lt_trans hlt h1))] at hmina
      linarith only [hmina, hlt]
    · subst hki
      have e : rk = a := Option.some.inj (hk.symm.trans ha)
      subst e
      exact determinePwmValue_lower force numericData k rk b ha hb hab (sub_neg.mpr h1)
    · rcases Nat.lt_or_ge (i + 1) k with hik | hik
      · exfalso
        have hlt := force_lt_of_index_lt numericData hsorted (i + 1) k b rk hb hk hik
        rw [abs_of_pos (sub_pos.mpr (lt_trans h2 hlt))] at hminb
        linarith only [hminb, hlt]
      · have hk1 : k = i + 1 := by omega
        subst hk1
        have e : rk = b := Option.some.inj (hk.symm.trans hb)
        subst e
        exact determinePwmValue_upper force numericData i a rk ha hb hab (sub_pos.mpr h2)
  rw [get_pwm_eq numericData hne, if_neg hlo, if_neg hhi]
  simp only [nearestRowLookup, hres, hval]
  rw [mul_div_assoc]


/-- The interpolation theorem at a concrete input: in the strictly increasing sample table the
force 1 lies between the rows `(0, 1500)` and `(2, 1700)`, and `get_pwm` returns 1600. -/
theorem get_pwm_strictTable_one : get_pwm strictTable 0 1 = Except.ok 1600 := by
  have hsorted : strictTable.Sorted (fun a b => a 0 < b 0) := by
    simp only [strictTable, List.Sorted, List.pairwise_cons, List.mem_cons, forall_eq_or_imp,
      List.mem_singleton, forall_eq, List.not_mem_nil, false_implies, implies_true,
      List.Pairwise.nil, and_true, sampleRow, cons_val_zero]
    norm_num
  have hnear : ∃ row ∈ strictTable, |row 0 - (1 : ℚ)| < INT_MAX :=
    ⟨sampleRow 0 1500, by simp [strictTable], by
      norm_num [sampleRow, INT_MAX, abs_neg, Nat.abs_ofNat]⟩
  have h := get_pwm_interpolates strictTable hsorted 0 1 hnear 2 (sampleRow 0 1500)
    (sampleRow 2 1700) rfl rfl (by norm_num [sampleRow]) (by norm_num [sampleRow])
  rw [h]
  norm_num [sampleRow, vecCons_val_five]

/-- Outside its third branch `determinePwmValue` interpolates between the rows that
`selectedRows` returns. -/
theorem determinePwmValue_eq_selectedRows (force : K) (numericData : List (Fin 7 → K))
    (sd : K) (k : Int) (hsd : sd ≠ 0) :
    determinePwmValue force numericData sd k
      = (selectedRows numericData sd k).map
          (fun p => p.1 5 + (force - p.1 0) * ((p.2 5 - p.1 5) / (p.2 0 - p.1 0))) := by
  rcases lt_or_gt_of_ne hsd with h | h
  · unfold determinePwmValue selectedRows
    rw [if_pos h, if_pos h]
    cases readRow numericData k with
    | none => rfl
    | some r =>
      simp only [Option.bind_eq_bind, Option.some_bind, Option.pure_def]
      by_cases h0 : r 0 = 0
      · rw [if_pos h0, if_pos h0]
        cases readRow numericData (k + 1) with
        | none => rfl
        | some r1 =>
          simp only [Option.some_bind]
          cases readRow numericData (if r1 0 = 0 then k + 1 else k) with
          | none => rfl
          | some a =>
            simp only [Option.some_bind]
            cases readRow numericData ((if r1 0 = 0 then k + 1 else k) + 1) with
            | none => rfl
            | some b => rfl
      · rw [if_neg h0, if_neg h0]
        cases readRow numericData k with
        | none => rfl
        | some a =>
          simp only [Option.some_bind]
          cases readRow numericData (k + 1) with
          | none => rfl
          | some b => rfl
  · have hn : ¬ sd < 0 := not_lt.mpr (le_of_lt h)
    unfold determinePwmValue selectedRows
    rw [if_neg hn, if_neg hn, if_pos h, if_pos h]
    cases readRow numericData k with
    | none => rfl
    | some r =>
      simp only [Option.bind_eq_bind, Option.some_bind, Option.pure_def]
      by_cases h0 : r 0 = 0
      · rw [if_pos h0, if_pos h0]
        cases readRow numericData (k - 1) with
        | none => rfl
        | some r1 =>
          simp only [Option.some_bind]
          cases readRow numericData ((if r1 0 = 0 then k - 1 else k) - 1) with
          | none => rfl
          | some a =>
            simp only [Option.some_bind]
            cases readRow numericData (if r1 0 = 0 then k - 1 else k) with
            | none => rfl
            | some b => rfl
      · rw [if_neg h0, if_neg h0]
        cases readRow numericData (k - 1) with
        | none => rfl
        | some a =>
          simp only [Option.some_bind]
          cases readRow numericData k with
          | none => rfl
          | some b => rfl

/-- With three consecutive zero-force rows and a negative difference at the first of them,
the rows selected for interpolation are the second and the third: both have force zero. -/
theorem selectedRows_three_zero_rows (numericData : List (Fin 7 → K)) (k : Nat)
    (r0 r1 r2 : Fin 7 → K) (h0 : numericData[k]? = some r0)
    (h1 : numericData[k + 1]? = some r1) (h2 : numericData[k + 2]? = some r2)
    (z0 : r0 0 = 0) (z1 : r1 0 = 0) (sd : K) (hsd : sd < 0) :
    selectedRows numericData sd (k : Int) = some (r1, r2) := by
  have e0 : readRow numericData (k : Int) = some r0 := by rw [readRow_natCast, h0]
  have e1 : readRow numericData ((k : Int) + 1) = some r1 := by
    have e : ((k : Int) + 1) = ((k + 1 : Nat) : Int) := by omega
    rw [e, readRow_natCast, h1]
  have e2 : readRow numericData ((k : Int) + 1 + 1) = some r2 := by
    have e : ((k : Int) + 1 + 1) = ((k + 2 : Nat) : Int) := by omega
    rw [e, readRow_natCast, h2]
  unfold selectedRows
  rw [if_pos hsd]
  simp only [e0, Option.bind_eq_bind, Option.some_bind, Option.pure_def, if_pos z0, e1,
    if_pos z1, e2]

/-! ### The combined surge, sway and yaw solver -/

/-- The forces returned by `thrust_compute_fx_fy_mz`, listed. -/
theorem thrust_compute_fx_fy_mz_eq (x y zt : K) :
    thrust_compute_fx_fy_mz x y zt =
      ![-8.72533307e-02 * x + 1.08905877e-01 * y + 4.77297359e-17 * zt,
        -8.72533307e-02 * x + -1.08905877e-01 * y + -9.09843115e-17 * zt,
        8.72533307e-02 * x + 1.08905877e-01 * y + -9.54417065e-17 * zt,
        8.72533307e-02 * x + -1.08905877e-01 * y + 1.38809793e-16 * zt,
        -3.53553281e-01 * x + -3.72516112e-01 * y + -1.14326218e+00 * zt,
        -3.53553281e-01 * x + 3.72516112e-01 * y + 1.14326218e+00 * zt,
        -3.53553281e-01 * x + 3.34590450e-01 * y + -1.14326218e+00 * zt,
        -3.53553281e-01 * x + -3.34590450e-01 * y + 1.14326218e+00 * zt] := by
  funext i
  fin_cases i <;>
    simp only [thrust_compute_fx_fy_mz, mulVec, dotProduct, Fin.sum_univ_six,
      Fin.reduceFinMk, Fin.isValue, Fin.zero_eta, Fin.mk_one, Matrix.of_apply,
      cons_val_zero, vecCons_val_one, vecCons_val_two, vecCons_val_three, vecCons_val_four,
      vecCons_val_five, vecCons_val_six, vecCons_val_seven] <;>
    ring

/-- A product is bounded by the product of bounds of its factors. -/
theorem abs_mul_le_of_abs_le (a x d B : K) (ha : |a| ≤ d) (hx : |x| ≤ B) :
    |a * x| ≤ d * B := by
  rw [abs_mul]
  exact mul_le_mul ha hx (abs_nonneg x) (le_trans (abs_nonneg a) ha)

/-! ### Top speed in closed form -/

/-- The surge force that `top_speed_x` computes from the force per thruster. -/
theorem top_speed_surge_force (s f : K) :
    net_force_from_thrusters (construct s) (angledForces f) 0 = -s * (4 * f) := by
  rw [net_force_construct, angledForces_eq]
  simp only [Fin.isValue, cons_val_zero, vecCons_val_four, vecCons_val_five,
    vecCons_val_six, vecCons_val_seven]
  ring

/-- The value of `top_speed_x` in terms of the surge force `fx`. -/
theorem top_speed_x_eq (s : ℝ) (forward : Bool) :
    top_speed_x Real.sqrt (fun x => |x|) (construct s) forward
      = (-s * (4 * (if forward then -3.5 else 4.5))
          / |(-s * (4 * (if forward then -3.5 else 4.5)))|)
        * Real.sqrt (|(-s * (4 * (if forward then -3.5 else 4.5)))| / (0.041 * 1025)) := by
  have hcd : (construct s).combined_drag_coefs 0 = 0.041 * 1025 := rfl
  have hmin : (construct s).min_thruster_force = -3.5 := rfl
  have hmax : (construct s).max_thruster_force = 4.5 := rfl
  simp only [top_speed_x, top_speed_surge_force, hcd, hmin, hmax]

/-! ### Index safety of the lookup -/

/-- A row with a force below a value that is at most the last row's force has a successor. -/
theorem exists_next_row (numericData : List (Fin 7 → K)) (hne : numericData ≠ []) (k : Nat)
    (r : Fin 7 → K) (hk : numericData[k]? = some r) (force : K) (hlt : r 0 < force)
    (hle : force ≤ (numericData.getLast hne) 0) :
    ∃ r1, numericData[k + 1]? = some r1 := by
  obtain ⟨hklt, hkr⟩ := List.getElem?_eq_some.mp hk
  by_cases h : k + 1 < numericData.length
  · exact ⟨numericData[k + 1], List.getElem?_eq_getElem h⟩
  · exfalso
    have hk1 : numericData.length - 1 = k := by omega
    have hlast : numericData.getLast hne = r := by
      rw [List.getLast_eq_getElem]
      simp only [hk1]
      exact hkr
    rw [hlast] at hle
    exact absurd hlt (not_lt.mpr hle)

/-- A row with a force above a value that is at least the first row's force has a
predecessor. -/
theorem exists_prev_row (numericData : List (Fin 7 → K)) (hne : numericData ≠ []) (k : Nat)
    (r : Fin 7 → K) (hk : numericData[k]? = some r) (force : K) (hgt : force < r 0)
    (hge : (numericData.head hne) 0 ≤ force) :
    ∃ (j : Nat) (r0 : Fin 7 → K), k = j + 1 ∧ numericData[j]? = some r0 := by
  cases k with
  | zero =>
    exfalso
    have hhead : numericData.head hne = r := by
      cases numericData with
      | nil => exact absurd rfl hne
      | cons a l =>
        simp at hk
        simp [hk]
    rw [hhead] at hge
    exact absurd hgt (not_lt.mpr hge)
  | succ j =>
    obtain ⟨hklt, _⟩ := List.getElem?_eq_some.mp hk
    have hj : j < numericData.length := by omega
    exact ⟨j, numericData[j], rfl, List.getElem?_eq_getElem hj⟩

/-- For a force within the range of the table, `selectedRows` at a valid row whose force
differs from it reads only rows of the table. -/
theorem selectedRows_isSome (numericData : List (Fin 7 → K)) (hne : numericData ≠ [])
    (force : K) (hge : (numericData.head hne) 0 ≤ force)
    (hle : force ≤ (numericData.getLast hne) 0) (k : Nat) (rk : Fin 7 → K)
    (hk : numericData[k]? = some rk) (hsd : rk 0 - force ≠ 0) :
    ∃ p, selectedRows numericData (rk 0 - force) (k : Int) = some p := by
  have e0 : readRow numericData (k : Int) = some rk := by rw [readRow_natCast, hk]
  rcases lt_or_gt_of_ne hsd with h | h
  · have hlt : rk 0 < force := sub_neg.mp h
    obtain ⟨r1, h1⟩ := exists_next_row numericData hne k rk hk force hlt hle
    have e1 : readRow numericData ((k : Int) + 1) = some r1 := by
      have e : ((k : Int) + 1) = ((k + 1 : Nat) : Int) := by omega
      rw [e, readRow_natCast, h1]
    unfold selectedRows
    rw [if_pos h]
    simp only [e0, Option.bind_eq_bind, Option.some_bind, Option.pure_def]
    by_cases z0 : rk 0 = 0
    · rw [if_pos z0]
      simp only [e1, Option.some_bind]
      by_cases z1 : r1 0 = 0
      · have hlt1 : r1 0 < force := by
          rw [z1, ← z0]
          exact hlt
        obtain ⟨r2, h2⟩ := exists_next_row numericData hne (k + 1) r1 h1 force hlt1 hle
        have e2 : readRow numericData ((k : Int) + 1 + 1) = some r2 := by
          have e : ((k : Int) + 1 + 1) = ((k + 1 + 1 : Nat) : Int) := by omega
          rw [e, readRow_natCast, h2]
        rw [if_pos z1]
        simp only [e1, e2, Option.some_bind]
        exact ⟨_, rfl⟩
      · rw [if_neg z1]
        simp only [e0, e1, Option.some_bind]
        exact ⟨_, rfl⟩
    · rw [if_neg z0]
      simp only [e0, e1, Option.some_bind]
      exact ⟨_, rfl⟩
  · have hgt : force < rk 0 := sub_pos.mp h
    have hn : ¬ rk 0 - force < 0 := not_lt.mpr (le_of_lt h)
    obtain ⟨j, r0, hkj, h0⟩ := exists_prev_row numericData hne k rk hk force hgt hge
    subst hkj
    have e1 : readRow numericData (((j + 1 : Nat) : Int) - 1) = some r0 := by
      have e : (((j + 1 : Nat) : Int) - 1) = (j : Int) := by omega
      rw [e, readRow_natCast, h0]
    unfold selectedRows
    rw [if_neg hn, if_pos h]
    simp only [e0, Option.bind_eq_bind, Option.some_bind, Option.pure_def]
    by_cases z0 : rk 0 = 0
    · rw [if_pos z0]
      simp only [e1, Option.some_bind]
      by_cases z1 : r0 0 = 0
      · have hgt1 : force < r0 0 := by
          rw [z1, ← z0]
          exact hgt
        obtain ⟨i, r00, hji, h00⟩ := exists_prev_row numericData hne j r0 h0 force hgt1 hge
        subst hji
        have e2 : readRow numericData (((i + 1 + 1 : Nat) : Int) - 1 - 1) = some r00 := by
          have e : (((i + 1 + 1 : Nat) : Int) - 1 - 1) = (i : Int) := by omega
          rw [e, readRow_natCast, h00]
        rw [if_pos z1]
        simp only [e1, e2, Option.some_bind]
        exact ⟨_, rfl⟩
      · rw [if_neg z1]
        simp only [e0, e1, Option.some_bind]
        exact ⟨_, rfl⟩
    · rw [if_neg z0]
      simp only [e0, e1, Option.some_bind]
      exact ⟨_, rfl⟩

/-- For a table with at least one row and a force within its range, one row being closer than
`INT_MAX` to the force, `get_pwm` selects a row of the table, reads only rows of the table and
returns a value. -/
theorem get_pwm_defined (numericData : List (Fin 7 → K)) (hne : numericData ≠ [])
    (thruster_num : Int) (force : K) (hge : (numericData.head hne) 0 ≤ force)
    (hle : force ≤ (numericData.getLast hne) 0)
    (hnear : ∃ row ∈ numericData, |row 0 - force| < INT_MAX) :
    ∃ pwmValue, get_pwm numericData thruster_num force = Except.ok pwmValue := by
  obtain ⟨k, rk, hk, hres, _⟩ := searchLoop_nearest force numericData hnear
  rw [get_pwm_eq numericData hne, if_neg (not_lt.mpr hge), if_neg (not_lt.mpr hle)]
  by_cases hsd : rk 0 - force = 0
  · have hdet : determinePwmValue force numericData (rk 0 - force) (k : Int)
        = some (rk 5) := by
      rw [hsd]
      simp [determinePwmValue, readRow_natCast, hk]
    exact ⟨rk 5, by simp only [nearestRowLookup, hres, hdet]⟩
  · obtain ⟨p, hp⟩ := selectedRows_isSome numericData hne force hge hle k rk hk hsd
    have hdet := determinePwmValue_eq_selectedRows force numericData (rk 0 - force) (k : Int)
      hsd
    rw [hp, Option.map_some'] at hdet
    exact ⟨p.1 5 + (force - p.1 0) * ((p.2 5 - p.1 5) / (p.2 0 - p.1 0)),
      by simp only [nearestRowLookup, hres, hdet]⟩

/-! ### Monotonicity of the lookup -/

/-- In a table sorted strictly by force, a row with a smaller force sits at a smaller index. -/
theorem index_lt_of_force_lt (numericData : List (Fin 7 → K))
    (hsorted : numericData.Sorted (fun a b => a 0 < b 0)) (i j : Nat) (a b : Fin 7 → K)
    (ha : numericData[i]? = some a) (hb : numericData[j]? = some b) (hab : a 0 < b 0) :
    i < j := by
  by_contra hcon
  rcases Nat.lt_or_ge j i with h | h
  · have := force_lt_of_index_lt numericData hsorted j i b a hb ha h
    exact lt_asymm hab this
  · have hij : i = j := by omega
    subst hij
    have e : a = b := Option.some.inj (ha.symm.trans hb)
    rw [e] at hab
    exact lt_irrefl _ hab

/-- In a table with non-decreasing commands, a row at a smaller or equal index has a smaller
or equal command. -/
theorem command_le_of_index_le (numericData : List (Fin 7 → K))
    (hcmd : numericData.Sorted (fun a b => a 5 ≤ b 5)) (i j : Nat) (a b : Fin 7 → K)
    (ha : numericData[i]? = some a) (hb : numericData[j]? = some b) (hij : i ≤ j) :
    a 5 ≤ b 5 := by
  rcases Nat.lt_or_ge i j with h | h
  · obtain ⟨hi, rfl⟩ := List.getElem?_eq_some.mp ha
    obtain ⟨hj, rfl⟩ := List.getElem?_eq_some.mp hb
    exact List.pairwise_iff_getElem.mp hcmd i j hi hj h
  · have e : i = j := by omega
    subst e
    rw [Option.some.inj (ha.symm.trans hb)]

/-- A force strictly between the first and the last force of a table that no row has lies
strictly between the forces of two adjacent rows. -/
theorem exists_bracket (force : K) :
    ∀ (numericData : List (Fin 7 → K)) (hne : numericData ≠ []),
      (numericData.head hne) 0 < force → force < (numericData.getLast hne) 0 →
      (∀ row ∈ numericData, row 0 ≠ force) →
      ∃ (i : Nat) (a b : Fin 7 → K), numericData[i]? = some a ∧ numericData[i + 1]? = some b ∧
        a 0 < force ∧ force < b 0
  | [], hne, _, _, _ => absurd rfl hne
  | [a], _, h1, h2, _ => absurd h1 (not_lt.mpr (le_of_lt h2))
  | a :: b :: rest, _, h1, h2, hnot => by
    rcases lt_trichotomy force (b 0) with h | h | h
    · exact ⟨0, a, b, by simp, by simp, h1, h⟩
    · exact absurd h.symm (hnot b (by simp))
    · have hne2 : b :: rest ≠ [] := List.cons_ne_nil b rest
      have hlast : (a :: b :: rest).getLast (List.cons_ne_nil a (b :: rest))
          = (b :: rest).getLast hne2 := List.getLast_cons hne2
      rw [hlast] at h2
      obtain ⟨i, a2, b2, ha2, hb2, hlo, hhi⟩ := exists_bracket force (b :: rest) hne2 h h2
        (fun row hrow => hnot row (List.mem_cons_of_mem a hrow))
      exact ⟨i + 1, a2, b2, by simpa using ha2, by simpa using hb2, hlo, hhi⟩

/-- At a force that some row of a sorted table has, `get_pwm` returns the command of a row
with that force. -/
theorem get_pwm_exact (numericData : List (Fin 7 → K))
    (hsorted : numericData.Sorted (fun a b => a 0 ≤ b 0)) (thruster_num : Int) (force : K)
    (h : ∃ row ∈ numericData, row 0 = force) :
    ∃ row ∈ numericData, row 0 = force ∧
      get_pwm numericData thruster_num force = Except.ok (row 5) := by
  obtain ⟨r0, hr0, hf0⟩ := h
  have hne : numericData ≠ [] := List.ne_nil_of_mem hr0
  have h1 : ¬ force < (numericData.head hne) 0 :=
    not_lt.mpr (hf0 ▸ head_force_le numericData hne hsorted r0 hr0)
  have h2 : ¬ force > (numericData.getLast hne) 0 :=
    not_lt.mpr (hf0 ▸ force_le_last numericData hne hsorted r0 hr0)
  obtain ⟨k, row, hk, hf, _, hres⟩ := nearestRowLookup_exact numericData force ⟨r0, hr0, hf0⟩
  exact ⟨row, List.getElem?_mem hk, hf,
    by rw [get_pwm_eq numericData hne, if_neg h1, if_neg h2, hres]⟩

/-- In a table with strictly increasing forces and non-decreasing commands, for a force within
the range and a row closer than `INT_MAX` to it, `get_pwm` returns a value that is at least the
command of every row with a force up to the requested one and at most the command of every row
with a force from the requested one on; the value is the command of a row with the requested
force or the interpolation between two adjacent rows around it. -/
theorem get_pwm_value_spec (numericData : List (Fin 7 → K)) (hne : numericData ≠ [])
    (hsorted : numericData.Sorted (fun a b => a 0 < b 0))
    (hcmd : numericData.Sorted (fun a b => a 5 ≤ b 5)) (thruster_num : Int) (force : K)
    (hge : (numericData.head hne) 0 ≤ force) (hle : force ≤ (numericData.getLast hne) 0)
    (hnear : ∃ row ∈ numericData, |row 0 - force| < INT_MAX) :
    ∃ v, get_pwm numericData thruster_num force = Except.ok v ∧
      (∀ row ∈ numericData, row 0 ≤ force → row 5 ≤ v) ∧
      (∀ row ∈ numericData, force ≤ row 0 → v ≤ row 5) ∧
      ((∃ row ∈ numericData, row 0 = force ∧ v = row 5) ∨
        ∃ (i : Nat) (a b : Fin 7 → K), numericData[i]? = some a ∧
          numericData[i + 1]? = some b ∧ a 0 < force ∧ force < b 0 ∧
          v = a 5 + (force - a 0) * (b 5 - a 5) / (b 0 - a 0)) := by
  have hle' : numericData.Sorted (fun a b => a 0 ≤ b 0) :=
    List.Pairwise.imp (fun h => le_of_lt h) hsorted
  by_cases htab : ∃ row ∈ numericData, row 0 = force
  · obtain ⟨row, hrow, hf, hres⟩ :=
      get_pwm_exact numericData hle' thruster_num force htab
    obtain ⟨j, hj⟩ := List.mem_iff_getElem?.mp hrow
    refine ⟨row 5, hres, ?_, ?_, Or.inl ⟨row, hrow, hf, rfl⟩⟩
    · intro r hr hrf
      obtain ⟨i, hi⟩ := List.mem_iff_getElem?.mp hr
      have hij : i ≤ j := by
        by_contra hcon
        have := force_lt_of_index_lt numericData hsorted j i row r hj hi (by omega)
        rw [hf] at this
        exact absurd this (not_lt.mpr hrf)
      exact command_le_of_index_le numericData hcmd i j r row hi hj hij
    · intro r hr hrf
      obtain ⟨i, hi⟩ := List.mem_iff_getElem?.mp hr
      have hij : j ≤ i := by
        by_contra hcon
        have := force_lt_of_index_lt numericData hsorted i j r row hi hj (by omega)
        rw [hf] at this
        exact absurd this (not_lt.mpr hrf)
      exact command_le_of_index_le numericData hcmd j i row r hj hi hij
  · have hnot : ∀ row ∈ numericData, row 0 ≠ force := fun row hrow hf => htab ⟨row, hrow, hf⟩
    have h1 : (numericData.head hne) 0 < force :=
      lt_of_le_of_ne hge (hnot _ (List.head_mem hne))
    have h2 : force < (numericData.getLast hne) 0 :=
      lt_of_le_of_ne hle (fun h => hnot _ (List.getLast_mem hne) h.symm)
    obtain ⟨i, a, b, ha, hb, hlo, hhi⟩ := exists_bracket force numericData hne h1 h2 hnot
    have hres := get_pwm_interpolates numericData hsorted thruster_num force hnear i a b ha hb
      hlo hhi
    have hab5 : a 5 ≤ b 5 :=
      command_le_of_index_le numericData hcmd i (i + 1) a b ha hb (Nat.le_succ i)
    have hden : 0 < b 0 - a 0 := sub_pos.mpr (lt_trans hlo hhi)
    have hfrac0 : 0 ≤ (force - a 0) * (b 5 - a 5) / (b 0 - a 0) :=
      div_nonneg (mul_nonneg (le_of_lt (sub_pos.mpr hlo)) (sub_nonneg.mpr hab5))
        (le_of_lt hden)
    have hfrac1 : (force - a 0) * (b 5 - a 5) / (b 0 - a 0) ≤ b 5 - a 5 := by
      rw [div_le_iff₀ hden]
      have := mul_le_mul_of_nonneg_right (le_of_lt (sub_lt_sub_right hhi (a 0)))
        (sub_nonneg.mpr hab5)
      linarith only [this]
    refine ⟨_, hres, ?_, ?_, Or.inr ⟨i, a, b, ha, hb, hlo, hhi, rfl⟩⟩
    · intro r hr hrf
      obtain ⟨j, hj⟩ := List.mem_iff_getElem?.mp hr
      have hji : j < i + 1 :=
        index_lt_of_force_lt numericData hsorted j (i + 1) r b hj hb (lt_of_le_of_lt hrf hhi)
      have := command_le_of_index_le numericData hcmd j i r a hj ha (by omega)
      linarith only [this, hfrac0]
    · intro r hr hrf
      obtain ⟨j, hj⟩ := List.mem_iff_getElem?.mp hr
      have hij : i < j :=
        index_lt_of_force_lt numericData hsorted i j a r ha hj (lt_of_lt_of_le hlo hrf)
      have := command_le_of_index_le numericData hcmd (i + 1) j b r hb hj (by omega)
      linarith only [this, hfrac1]

/-- In a table with strictly increasing forces and non-decreasing commands, `get_pwm` is
monotone on the forces of the range that have a row closer than `INT_MAX`, and its values lie
between the commands of the first and the last row. -/
theorem get_pwm_monotone (numericData : List (Fin 7 → K)) (hne : numericData ≠ [])
    (hsorted : numericData.Sorted (fun a b => a 0 < b 0))
    (hcmd : numericData.Sorted (fun a b => a 5 ≤ b 5)) (thruster_num : Int) (f1 f2 : K)
    (hlo : (numericData.head hne) 0 ≤ f1) (h12 : f1 ≤ f2)
    (hhi : f2 ≤ (numericData.getLast hne) 0)
    (hnear1 : ∃ row ∈ numericData, |row 0 - f1| < INT_MAX)
    (hnear2 : ∃ row ∈ numericData, |row 0 - f2| < INT_MAX) :
    ∃ v1 v2, get_pwm numericData thruster_num f1 = Except.ok v1 ∧
      get_pwm numericData thruster_num f2 = Except.ok v2 ∧ v1 ≤ v2 ∧
      (numericData.head hne) 5 ≤ v1 ∧ v2 ≤ (numericData.getLast hne) 5 := by
  obtain ⟨v1, hv1, hL1, hU1, hk1⟩ := get_pwm_value_spec numericData hne hsorted hcmd
    thruster_num f1 hlo (le_trans h12 hhi) hnear1
  obtain ⟨v2, hv2, hL2, hU2, hk2⟩ := get_pwm_value_spec numericData hne hsorted hcmd
    thruster_num f2 (le_trans hlo h12) hhi hnear2
  refine ⟨v1, v2, hv1, hv2, ?_, hL1 _ (List.head_mem hne) hlo,
    hU2 _ (List.getLast_mem hne) hhi⟩
  rcases hk1 with ⟨r1, hr1, hf1, he1⟩ | ⟨i1, a1, b1, ha1, hb1, hlo1, hhi1, he1⟩
  · rw [he1]
    exact hL2 r1 hr1 (hf1 ▸ h12)
  · rcases hk2 with ⟨r2, hr2, hf2, he2⟩ | ⟨i2, a2, b2, ha2, hb2, hlo2, hhi2, he2⟩
    · rw [he2]
      exact hU1 r2 hr2 (hf2 ▸ h12)
    · rcases Nat.lt_or_ge i1 i2 with h | h
      · have hb1a2 : b1 5 ≤ v2 := by
          apply hL2 b1 (List.getElem?_mem hb1)
          rcases Nat.lt_or_ge (i1 + 1) i2 with h' | h'
          · exact le_of_lt (lt_trans
              (force_lt_of_index_lt numericData hsorted (i1 + 1) i2 b1 a2 hb1 ha2 h') hlo2)
          · have e : i1 + 1 = i2 := by omega
            subst e
            rw [Option.some.inj (hb1.symm.trans ha2)]
            exact le_of_lt hlo2
        exact le_trans (hU1 b1 (List.getElem?_mem hb1) (le_of_lt hhi1)) hb1a2
      · rcases Nat.lt_or_ge i2 i1 with h' | h'
        · exfalso
          have hb2a1 : b2 0 ≤ a1 0 := by
            rcases Nat.lt_or_ge (i2 + 1) i1 with h'' | h''
            · exact le_of_lt
                (force_lt_of_index_lt numericData hsorted (i2 + 1) i1 b2 a1 hb2 ha1 h'')
            · have e : i2 + 1 = i1 := by omega
              subst e
              rw [Option.some.inj (hb2.symm.trans ha1)]
          linarith only [hb2a1, hlo1, h12, hhi2]
        · have e : i1 = i2 := by omega
          subst e
          have ea : a2 = a1 := Option.some.inj (ha2.symm.trans ha1)
          have eb : b2 = b1 := Option.some.inj (hb2.symm.trans hb1)
          subst ea
          subst eb
          rw [he1, he2]
          have hab5 : a2 5 ≤ b2 5 :=
            command_le_of_index_le numericData hcmd i1 (i1 + 1) a2 b2 ha1 hb1 (Nat.le_succ i1)
          have hden : 0 < b2 0 - a2 0 := sub_pos.mpr (lt_trans hlo1 hhi1)
          have hnum : (f1 - a2 0) * (b2 5 - a2 5) ≤ (f2 - a2 0) * (b2 5 - a2 5) :=
            mul_le_mul_of_nonneg_right (sub_le_sub_right h12 (a2 0)) (sub_nonneg.mpr hab5)
          have := div_le_div_of_nonneg_right hnum (le_of_lt hden)
          linarith only [this]

/-! ## C1 -/

/-- C1: for every heave force `z`, `thrust_compute_fz z` puts exactly `z / 4` on each of the
vertical thrusters 0..3 and exactly 0 on each of the angled thrusters 4..7; at `z = 8` this is
2 on thrusters 0..3 and 0 on thrusters 4..7. -/
theorem C1_thrust_compute_fz_allocation (z : K) :
    thrust_compute_fz z = ![z / 4, z / 4, z / 4, z / 4, 0, 0, 0, 0] ∧
    thrust_compute_fz (8 : K) = ![2, 2, 2, 2, 0, 0, 0, 0] := by
  refine ⟨thrust_compute_fz_eq z, ?_⟩
  rw [thrust_compute_fz_eq]
  norm_num

/-! ## C2 -/

/-- C2 (as stated, refuted): at `z = 8` the wrench predicted for `thrust_compute_fz 8` is not
within `1e-4` of `(0, 0, 8, 0, 0, 0)` in every component: the pitch moment `My` is
`0.0986912`. -/
theorem C2_counterexample :
    ¬ (∀ j : Fin 6,
        |net_force_from_thrusters (construct sin45_float) (thrust_compute_fz (8 : ℚ)) j
          - (![0, 0, 8, 0, 0, 0] : Fin 6 → ℚ) j| ≤ 1e-4) := by
  intro h
  have h4 := h 4
  rw [net_force_construct, thrust_compute_fz_eq] at h4
  simp only [Fin.isValue, cons_val_zero, vecCons_val_one, vecCons_val_two, vecCons_val_three,
    vecCons_val_four, vecCons_val_five, vecCons_val_six, vecCons_val_seven] at h4
  norm_num [abs_le] at h4

/-- C2 (amended): for the reference geometry and every `z`, the wrench predicted for
`thrust_compute_fz z` has `Fx = Fy = Mx = Mz = 0` and `Fz = z` exactly, while the pitch moment
is `My = 0.0123364 * z`. -/
theorem C2_thrust_compute_fz_wrench (s z : K) :
    net_force_from_thrusters (construct s) (thrust_compute_fz z)
      = ![0, 0, z, 0, 0.0123364 * z, 0] := by
  rw [net_force_construct, thrust_compute_fz_eq]
  simp only [Fin.isValue, cons_val_zero, vecCons_val_one, vecCons_val_two, vecCons_val_three,
    vecCons_val_four, vecCons_val_five, vecCons_val_six, vecCons_val_seven]
  funext j
  fin_cases j <;>
    simp only [Fin.reduceFinMk, Fin.isValue, Fin.zero_eta, Fin.mk_one,
      cons_val_zero, vecCons_val_one, vecCons_val_two, vecCons_val_three, vecCons_val_four,
      vecCons_val_five] <;>
    ring

/-! ## C3 -/

/-- C3: the 6x8 wrench matrix of the reference geometry has full row rank 6, and for every
desired wrench `(fx, fy, fz, mx, my, mz)` the force set returned by `thrust_compute_general`
reproduces it exactly: `net_force_from_thrusters` of it is the desired wrench. -/
theorem C3_general_solver_zero_residual (s : K) (hs : s ≠ 0) (fx fy fz mx my mz : K) :
    (construct s).wrench_matrix.rank = 6 ∧
    net_force_from_thrusters (construct s)
        (thrust_compute_general (construct s) fx fy fz mx my mz)
      = ![fx, fy, fz, mx, my, mz] :=
  ⟨wrench_matrix_rank s hs, net_force_thrust_compute_general s hs fx fy fz mx my mz⟩

/-- C3 at a concrete input: the binary32 value of `sin45` and the wrench
`(1, 2, 3, 4, 5, 6)`. -/
theorem C3_general_solver_zero_residual_witness :
    sin45_float ≠ 0 ∧
    ((construct sin45_float).wrench_matrix.rank = 6 ∧
     net_force_from_thrusters (construct sin45_float)
        (thrust_compute_general (construct sin45_float) 1 2 3 4 5 6)
      = ![1, 2, 3, 4, 5, 6]) :=
  ⟨by norm_num [sin45_float],
    C3_general_solver_zero_residual sin45_float (by norm_num [sin45_float]) 1 2 3 4 5 6⟩

/-! ## C4 -/

/-- C5: for every force set `f`, `net_force_from_thrusters f` is the sum over the eight
thrusters of `f i` times the thruster's direction vector followed by its torque vector; its
first three components are `compute_forces f` and its last three are `compute_torques f`. -/
theorem C5_net_force_is_wrench_sum (s : K) (f : thruster_set K) :
    net_force_from_thrusters (construct s) f
        = ∑ i, f i • (Fin.append ((construct s).thruster_directions i)
            ((construct s).thruster_torques i) : Fin 6 → K) ∧
    (∀ j : Fin 3, net_force_from_thrusters (construct s) f (Fin.castAdd 3 j)
        = compute_forces (construct s) f j) ∧
    (∀ j : Fin 3, net_force_from_thrusters (construct s) f (Fin.natAdd 3 j)
        = compute_torques (construct s) f j) := by
  have hsum : net_force_from_thrusters (construct s) f
      = ∑ i, f i • (Fin.append ((construct s).thruster_directions i)
          ((construct s).thruster_torques i) : Fin 6 → K) := by
    funext j
    rw [Finset.sum_apply]
    show ∑ i, (construct s).wrench_matrix_transposed i j * f i = _
    refine Finset.sum_congr rfl (fun i _ => ?_)
    rw [construct_wrench_matrix_transposed, segments_eq_append, Pi.smul_apply, smul_eq_mul,
      mul_comm]
  refine ⟨hsum, fun j => ?_, fun j => ?_⟩
  · rw [hsum, compute_forces_construct, Finset.sum_apply, Finset.sum_apply]
    refine Finset.sum_congr rfl (fun i _ => ?_)
    rw [Pi.smul_apply, Pi.smul_apply]
    exact congrArg (fun x => f i • x) (Fin.append_left _ _ j)
  · rw [hsum, compute_torques_construct, Finset.sum_apply, Finset.sum_apply]
    refine Finset.sum_congr rfl (fun i _ => ?_)
    rw [Pi.smul_apply, Pi.smul_apply]
    exact congrArg (fun x => f i • x) (Fin.append_right _ _ j)

/-! ## C6 -/

/-- C6: after construction, for every thruster `i`, row `i` of `wrench_matrix_transposed`
(column `i` of `wrench_matrix`) is the thruster's direction vector followed by its torque
vector, and the torque vector is the cross product of `thruster_position i - mass_center` with
the direction. -/
theorem C6_wrench_rows (s : K) (i : Fin 8) :
    (construct s).wrench_matrix_transposed i
        = Fin.append ((construct s).thruster_directions i) ((construct s).thruster_torques i) ∧
    (fun j => (construct s).wrench_matrix j i) = (construct s).wrench_matrix_transposed i ∧
    (construct s).thruster_torques i
        = crossProduct ((construct s).thruster_positions i - (construct s).mass_center)
            ((construct s).thruster_directions i) := by
  refine ⟨?_, rfl, ?_⟩
  · rw [construct_wrench_matrix_transposed, segments_eq_append]
  · rw [construct_thruster_torques, cross_apply]
    rfl

/-! ## C7 -/

/-- C7: on the reference geometry, with direction vectors of at most unit length
(`2 * sin45 ^ 2 ≤ 1`), for every desired wrench whose linear force `(fx, fy, fz)` has Euclidean
magnitude greater than `8 * max_thruster_force = 36`, the force set that
`thrust_compute_general` returns has at least one thruster force outside
`[min_thruster_force, max_thruster_force] = [-3.5, 4.5]`. -/
theorem C7_overload_is_infeasible (s : ℝ) (hs : s ≠ 0) (hs2 : 2 * s ^ 2 ≤ 1)
    (fx fy fz mx my mz : ℝ)
    (hmag : 8 * (construct s).max_thruster_force < Real.sqrt (fx ^ 2 + fy ^ 2 + fz ^ 2)) :
    8 * (construct s).max_thruster_force = 36 ∧
    (construct s).min_thruster_force = -3.5 ∧ (construct s).max_thruster_force = 4.5 ∧
    ∃ i, thrust_compute_general (construct s) fx fy fz mx my mz i
          < (construct s).min_thruster_force ∨
        (construct s).max_thruster_force
          < thrust_compute_general (construct s) fx fy fz mx my mz i := by
  have hmax : (construct s).max_thruster_force = 4.5 := rfl
  have hmin : (construct s).min_thruster_force = -3.5 := rfl
  refine ⟨by rw [hmax]; norm_num, hmin, hmax, ?_⟩
  by_contra hcon
  push_neg at hcon
  rw [hmax] at hmag
  rw [hmin, hmax] at hcon
  have hbound := linear_force_sq_le s hs2 _ hcon
  rw [net_force_thrust_compute_general s hs] at hbound
  simp only [Fin.isValue, cons_val_zero, vecCons_val_one, vecCons_val_two] at hbound
  have h36 : (8 * 4.5 : ℝ) ^ 2 < fx ^ 2 + fy ^ 2 + fz ^ 2 :=
    (Real.lt_sqrt (by norm_num)).mp hmag
  norm_num at h36
  linarith

/-- C7 at a concrete input: `sin45 = 1 / 2` and a pure surge request of 37 N. -/
theorem C7_overload_is_infeasible_witness :
    (1 / 2 : ℝ) ≠ 0 ∧ 2 * (1 / 2 : ℝ) ^ 2 ≤ 1 ∧
    8 * (construct (1 / 2 : ℝ)).max_thruster_force
      < Real.sqrt ((37 : ℝ) ^ 2 + (0 : ℝ) ^ 2 + (0 : ℝ) ^ 2) ∧
    ∃ i, thrust_compute_general (construct (1 / 2 : ℝ)) 37 0 0 0 0 0 i
          < (construct (1 / 2 : ℝ)).min_thruster_force ∨
        (construct (1 / 2 : ℝ)).max_thruster_force
          < thrust_compute_general (construct (1 / 2 : ℝ)) 37 0 0 0 0 0 i :=
  have hmag : 8 * (construct (1 / 2 : ℝ)).max_thruster_force
      < Real.sqrt ((37 : ℝ) ^ 2 + (0 : ℝ) ^ 2 + (0 : ℝ) ^ 2) := by
    have hmax : (construct (1 / 2 : ℝ)).max_thruster_force = 4.5 := rfl
    rw [hmax]
    apply Real.lt_sqrt_of_sq_lt
    norm_num
  ⟨by norm_num, by norm_num, hmag,
    (C7_overload_is_infeasible (1 / 2) (by norm_num) (by norm_num) 37 0 0 0 0 0 hmag).2.2.2⟩

/-! ## C8 -/

/-- C8 (as stated, refuted): `thrust_compute_fy` at `y_force = 1` returns a force set although
the yaw moment predicted for it differs from the required 0 by more than `1e-4` (it is
`-0.0165864`); no error is reported. -/
theorem C8_counterexample :
    ∃ forces : thruster_set ℚ, thrust_compute_fy sin45_float 1 = forces ∧
      (1e-4 : ℚ) < |net_force_from_thrusters (construct sin45_float) forces 5 - 0| := by
  refine ⟨_, rfl, ?_⟩
  rw [net_force_construct, thrust_compute_fy_eq]
  simp only [Fin.isValue, vecCons_val_four, vecCons_val_five, vecCons_val_six,
    vecCons_val_seven]
  norm_num [sin45_float, abs_of_neg]

/-- C8 (amended): the single-axis solvers have no error path, they return their closed-form
force set for every input.  For `thrust_compute_fz` and `thrust_compute_fx` the predicted
`fx`, `fy`, `fz`, `mz` are exactly the requested ones (driven component equal to the input,
the others zero); for `thrust_compute_fy` the predicted `fx`, `fy`, `fz` are. -/
theorem C8_single_axis_solvers_exact (s : K) (hs : s ≠ 0) (x y z : K) :
    (net_force_from_thrusters (construct s) (thrust_compute_fz z) 0 = 0 ∧
      net_force_from_thrusters (construct s) (thrust_compute_fz z) 1 = 0 ∧
      net_force_from_thrusters (construct s) (thrust_compute_fz z) 2 = z ∧
      net_force_from_thrusters (construct s) (thrust_compute_fz z) 5 = 0) ∧
    (net_force_from_thrusters (construct s) (thrust_compute_fx s x) 0 = x ∧
      net_force_from_thrusters (construct s) (thrust_compute_fx s x) 1 = 0 ∧
      net_force_from_thrusters (construct s) (thrust_compute_fx s x) 2 = 0 ∧
      net_force_from_thrusters (construct s) (thrust_compute_fx s x) 5 = 0) ∧
    (net_force_from_thrusters (construct s) (thrust_compute_fy s y) 0 = 0 ∧
      net_force_from_thrusters (construct s) (thrust_compute_fy s y) 1 = y ∧
      net_force_from_thrusters (construct s) (thrust_compute_fy s y) 2 = 0) :=
  single_axis_wrenches s hs x y z

/-- C8 (amended) at a concrete input: the binary32 value of `sin45` and requests of 1 N. -/
theorem C8_single_axis_solvers_exact_witness :
    sin45_float ≠ 0 ∧
    net_force_from_thrusters (construct sin45_float) (thrust_compute_fx sin45_float 1) 0 = 1 ∧
    net_force_from_thrusters (construct sin45_float) (thrust_compute_fy sin45_float 1) 1 = 1 ∧
    net_force_from_thrusters (construct sin45_float) (thrust_compute_fz 1) 2 = 1 :=
  have h := C8_single_axis_solvers_exact sin45_float (by norm_num [sin45_float]) 1 1 1
  ⟨by norm_num [sin45_float], h.2.1.1, h.2.2.2.1, h.1.2.2.1⟩

/-! ## C9 -/

/-- C9: for every calibration table sorted by force and every force equal to the force
(column 0) of some row, `get_pwm` returns the command (column 5) of a row whose force is the
requested force, without interpolation. -/
theorem C9_exact_force_returns_row_command (numericData : List (Fin 7 → K))
    (hsorted : numericData.Sorted (fun a b => a 0 ≤ b 0)) (thruster_num : Int) (force : K)
    (h : ∃ row ∈ numericData, row 0 = force) :
    ∃ row ∈ numericData, row 0 = force ∧
      get_pwm numericData thruster_num force = Except.ok (row 5) := by
  have hne : numericData ≠ [] := by
    obtain ⟨row, hrow, _⟩ := h
    exact List.ne_nil_of_mem hrow
  obtain ⟨r0, hr0, hf0⟩ := h
  have h1 : ¬ force < (numericData.head hne) 0 :=
    not_lt.mpr (hf0 ▸ head_force_le numericData hne hsorted r0 hr0)
  have h2 : ¬ force > (numericData.getLast hne) 0 :=
    not_lt.mpr (hf0 ▸ force_le_last numericData hne hsorted r0 hr0)
  obtain ⟨k, row, hk, hf, _, hres⟩ := nearestRowLookup_exact numericData force ⟨r0, hr0, hf0⟩
  refine ⟨row, List.getElem?_mem hk, hf, ?_⟩
  rw [get_pwm_eq numericData hne, if_neg h1, if_neg h2, hres]

/-- C9 at a concrete input: the sample table and the tabulated force 2. -/
theorem C9_exact_force_returns_row_command_witness :
    sampleTable.Sorted (fun a b => a 0 ≤ b 0) ∧
    (∃ row ∈ sampleTable, row 0 = 2) ∧
    ∃ row ∈ sampleTable, row 0 = 2 ∧ get_pwm sampleTable 0 2 = Except.ok (row 5) :=
  have h : ∃ row ∈ sampleTable, row 0 = 2 :=
    ⟨sampleRow 2 1700, by simp [sampleTable], by simp [sampleRow]⟩
  ⟨sampleTable_sorted, h, C9_exact_force_returns_row_command sampleTable sampleTable_sorted 0 2 h⟩

/-! ## C10 -/

/-- C10 (as stated, refuted): the table with rows `(-2, 1100)`, `(0, 1464)`, `(0, 1536)` is
sorted by force and 0 is its largest force, the force of its last row; at force 0 `get_pwm`
returns 1464, the command of the first row with force 0, not the command 1536 of the last
row. -/
theorem C10_counterexample :
    repeatedMaxTable.Sorted (fun a b => a 0 ≤ b 0) ∧
    repeatedMaxTable.getLast? = some (sampleRow 0 1536) ∧
    (0 : ℚ) = (sampleRow 0 1536) 0 ∧
    get_pwm repeatedMaxTable 0 0 = Except.ok 1464 ∧
    get_pwm repeatedMaxTable 0 0 ≠ Except.ok ((sampleRow 0 1536) 5) := by
  have hne : repeatedMaxTable ≠ [] := by simp [repeatedMaxTable]
  have hh : repeatedMaxTable.head hne = sampleRow (-2) 1100 := rfl
  have hl : repeatedMaxTable.getLast hne = sampleRow 0 1536 := rfl
  have hloop : searchLoop 0 repeatedMaxTable 0 (INT_MAX, none) = (0, some 1) := by
    norm_num [searchLoop, repeatedMaxTable, sampleRow, INT_MAX, abs_div, abs_neg,
      Nat.abs_ofNat]
  have hrow : readRow repeatedMaxTable ((1 : Nat) : Int) = some (sampleRow 0 1464) := by
    rw [readRow_natCast]
    rfl
  have hdet : determinePwmValue 0 repeatedMaxTable 0 ((1 : Nat) : Int) = some 1464 := by
    unfold determinePwmValue
    rw [if_neg (lt_irrefl (0 : ℚ)), if_neg (lt_irrefl (0 : ℚ)), hrow]
    simp only [Option.bind_eq_bind, Option.some_bind, Option.pure_def, sampleRow,
      vecCons_val_five]
  have hdet1 : determinePwmValue 0 repeatedMaxTable 0 (1 : Int) = some 1464 := by
    exact_mod_cast hdet
  have h1 : ¬ (0 : ℚ) < (repeatedMaxTable.head hne) 0 := by
    rw [hh]
    norm_num [sampleRow]
  have h2 : ¬ (0 : ℚ) > (repeatedMaxTable.getLast hne) 0 := by
    rw [hl]
    norm_num [sampleRow]
  have hres : get_pwm repeatedMaxTable 0 0 = Except.ok 1464 := by
    rw [get_pwm_eq repeatedMaxTable hne, if_neg h1, if_neg h2]
    simp only [nearestRowLookup, hloop, hdet1]
  refine ⟨?_, rfl, by simp [sampleRow], hres, ?_⟩
  · simp only [repeatedMaxTable, List.Sorted, List.pairwise_cons, List.mem_cons,
      forall_eq_or_imp, List.mem_singleton, forall_eq, List.not_mem_nil, false_implies,
      implies_true, List.Pairwise.nil, and_true, sampleRow, cons_val_zero]
    norm_num
  · rw [hres]
    intro h
    have h5 : (1464 : ℚ) = (sampleRow 0 1536) 5 := Except.ok.inj h
    simp only [sampleRow, vecCons_val_five] at h5
    norm_num at h5

/-- C10 (amended): for every calibration table (with at least one row) sorted by force,
`get_pwm` ends with the out-of-range error exactly when the force is strictly below the first
row's force or strictly above the last row's force.  At the first row's force it returns the
first row's command; at the last row's force it returns the command of the first row that has
that force, which is the last row whenever no earlier row repeats that force. -/
theorem C10_out_of_range_iff (numericData : List (Fin 7 → K)) (hne : numericData ≠ [])
    (hsorted : numericData.Sorted (fun a b => a 0 ≤ b 0)) (thruster_num : Int) (force : K) :
    (get_pwm numericData thruster_num force = Except.error PwmFailure.outOfRange ↔
      (force < (numericData.head hne) 0 ∨ (numericData.getLast hne) 0 < force)) ∧
    (force = (numericData.head hne) 0 →
      get_pwm numericData thruster_num force = Except.ok ((numericData.head hne) 5)) ∧
    (force = (numericData.getLast hne) 0 →
      ∃ (k : Nat) (row : Fin 7 → K), numericData[k]? = some row ∧
        row 0 = (numericData.getLast hne) 0 ∧
        (∀ j r, j < k → numericData[j]? = some r → r 0 ≠ (numericData.getLast hne) 0) ∧
        get_pwm numericData thruster_num force = Except.ok (row 5)) ∧
    (force = (numericData.getLast hne) 0 →
      (∀ row ∈ numericData.dropLast, row 0 ≠ (numericData.getLast hne) 0) →
      get_pwm numericData thruster_num force = Except.ok ((numericData.getLast hne) 5)) := by
  have hhead : numericData.head hne ∈ numericData := List.head_mem hne
  have hlast : numericData.getLast hne ∈ numericData := List.getLast_mem hne
  have hinrange : ∀ row ∈ numericData, row 0 = force →
      get_pwm numericData thruster_num force = nearestRowLookup numericData force := by
    intro row hrow hf
    rw [get_pwm_eq numericData hne,
      if_neg (not_lt.mpr (hf ▸ head_force_le numericData hne hsorted row hrow)),
      if_neg (not_lt.mpr (hf ▸ force_le_last numericData hne hsorted row hrow))]
  refine ⟨?_, ?_, ?_, ?_⟩
  · rw [get_pwm_eq numericData hne]
    constructor
    · intro h
      by_contra hcon
      push_neg at hcon
      rw [if_neg (not_lt.mpr hcon.1), if_neg (not_lt.mpr hcon.2)] at h
      exact nearestRowLookup_ne_outOfRange numericData force h
    · rintro (h | h)
      · rw [if_pos h]
      · by_cases h1 : force < (numericData.head hne) 0
        · rw [if_pos h1]
        · rw [if_neg h1, if_pos h]
  · intro hf
    obtain ⟨k, row, hk, _, hfirst, hres⟩ :=
      nearestRowLookup_exact numericData force ⟨_, hhead, hf.symm⟩
    have hk0 : k = 0 := by
      by_contra hk0
      have h0 : numericData[0]? = some (numericData.head hne) := by
        cases numericData with
        | nil => exact absurd rfl hne
        | cons a l => simp
      exact hfirst 0 _ (Nat.pos_of_ne_zero hk0) h0 hf.symm
    have hrow : row = numericData.head hne := by
      subst hk0
      cases numericData with
      | nil => exact absurd rfl hne
      | cons a l =>
        simp at hk
        simp [hk]
    rw [hinrange _ hhead hf.symm, hres, hrow]
  · intro hf
    obtain ⟨k, row, hk, hrf, hfirst, hres⟩ :=
      nearestRowLookup_exact numericData force ⟨_, hlast, hf.symm⟩
    refine ⟨k, row, hk, hrf.trans hf, ?_, by rw [hinrange _ hlast hf.symm, hres]⟩
    intro j r hj hr
    rw [← hf]
    exact hfirst j r hj hr
  · intro hf hnodup
    obtain ⟨k, row, hk, hrf, _, hres⟩ :=
      nearestRowLookup_exact numericData force ⟨_, hlast, hf.symm⟩
    have hmem : row ∈ numericData := List.getElem?_mem hk
    have hrow : row = numericData.getLast hne := by
      rw [← List.dropLast_append_getLast hne] at hmem
      rcases List.mem_append.mp hmem with h | h
      · exact absurd (hrf.trans hf) (hnodup row h)
      · exact List.mem_singleton.mp h
    rw [hinrange _ hlast hf.symm, hres, hrow]

/-- C10 (amended) at a concrete input: the sample table at its largest force 4. -/
theorem C10_out_of_range_iff_witness :
    sampleTable ≠ [] ∧ sampleTable.Sorted (fun a b => a 0 ≤ b 0) ∧
    (get_pwm sampleTable 0 4 = Except.error PwmFailure.outOfRange ↔
      ((4 : ℚ) < (sampleTable.head (by simp [sampleTable])) 0 ∨
        (sampleTable.getLast (by simp [sampleTable])) 0 < 4)) :=
  ⟨by simp [sampleTable], sampleTable_sorted,
    (C10_out_of_range_iff sampleTable (by simp [sampleTable]) sampleTable_sorted 0 4).1⟩

/-! ## C11 -/

/-- C11 (the code on a table whose rows are all farther than `INT_MAX` from the force): on the
strictly increasing table with forces `-3000000000` and `3000000000` and at force 0, the
nearest-row loop never assigns `closestRowIndex`, so `get_pwm` has no defined result, where the
interpolation would be 1500. -/
theorem C11_closest_row_never_assigned :
    wideTable.Sorted (fun a b => a 0 < b 0) ∧
    searchLoop 0 wideTable 0 (INT_MAX, none) = (INT_MAX, none) ∧
    get_pwm wideTable 0 0 = Except.error PwmFailure.undefinedBehaviour := by
  have hloop : searchLoop 0 wideTable 0 (INT_MAX, none) = (INT_MAX, none) := by
    norm_num [searchLoop, wideTable, sampleRow, INT_MAX, abs_div, abs_neg, Nat.abs_ofNat]
  refine ⟨?_, hloop, ?_⟩
  · simp only [wideTable, List.Sorted, List.pairwise_cons, List.mem_cons, forall_eq_or_imp,
      List.mem_singleton, forall_eq, List.not_mem_nil, false_implies, implies_true,
      List.Pairwise.nil, and_true, sampleRow, cons_val_zero]
    norm_num
  · have hne : wideTable ≠ [] := by simp [wideTable]
    have hh : wideTable.head hne = sampleRow (-3000000000) 1100 := rfl
    have hl : wideTable.getLast hne = sampleRow 3000000000 1900 := rfl
    have h1 : ¬ (0 : ℚ) < (wideTable.head hne) 0 := by
      rw [hh]
      norm_num [sampleRow]
    have h2 : ¬ (0 : ℚ) > (wideTable.getLast hne) 0 := by
      rw [hl]
      norm_num [sampleRow]
    rw [get_pwm_eq wideTable hne, if_neg h1, if_neg h2]
    simp only [nearestRowLookup, hloop]

/-! ## C12 -/

/-- C12 (the code on a table with three consecutive zero-force rows): on the table with forces
`-1, 0, 0, 0, 2` and at force `1 / 2`, the loop stops on the first zero row (index 1) with
difference `-1 / 2`, the zero-row test moves one row on, and the rows selected for
interpolation are the second and third zero rows: `x2 - x1 = 0`. -/
theorem C12_three_zero_rows_select_equal_forces :
    tripleZeroTable.Sorted (fun a b => a 0 ≤ b 0) ∧
    (∀ row ∈ tripleZeroTable, row 0 ≠ 1 / 2) ∧
    searchLoop (1 / 2) tripleZeroTable 0 (INT_MAX, none) = (-1 / 2, some 1) ∧
    selectedRows tripleZeroTable (-1 / 2) 1 = some (sampleRow 0 1500, sampleRow 0 1536) ∧
    (sampleRow 0 1536) 0 - (sampleRow 0 1500) 0 = 0 := by
  refine ⟨?_, ?_, ?_, ?_, ?_⟩
  · simp only [tripleZeroTable, List.Sorted, List.pairwise_cons, List.mem_cons,
      forall_eq_or_imp, List.mem_singleton, forall_eq, List.not_mem_nil, false_implies,
      implies_true, List.Pairwise.nil, and_true, sampleRow, cons_val_zero]
    norm_num
  · simp only [tripleZeroTable, List.mem_cons, forall_eq_or_imp, List.mem_singleton, forall_eq,
      List.not_mem_nil, false_implies, implies_true, and_true, sampleRow, cons_val_zero]
    norm_num
  · norm_num [searchLoop, tripleZeroTable, sampleRow, INT_MAX, abs_div, abs_neg,
      Nat.abs_ofNat]
  · have h := selectedRows_three_zero_rows tripleZeroTable 1 (sampleRow 0 1464)
      (sampleRow 0 1500) (sampleRow 0 1536) rfl rfl rfl (by simp [sampleRow])
      (by simp [sampleRow]) (-1 / 2 : ℚ) (by norm_num)
    exact_mod_cast h
  · simp [sampleRow]

/-! ## C13 -/

/-- C13 (as stated, refuted): at surge velocity 1 (positive) the surge component of
`predict_drag_forces` is `42.025`, which is not `≤ 0`. -/
theorem C13_counterexample :
    (0 : ℚ) < (![1, 0, 0, 0, 0, 0] : six_axis ℚ) 0 ∧
    ¬ predict_drag_forces (construct sin45_float) ![1, 0, 0, 0, 0, 0] 0 ≤ 0 := by
  have hrho : (construct sin45_float).rho_water = 1025 := rfl
  rw [predict_drag_forces_apply, hrho]
  norm_num

/-- C13 (amended): for every velocity vector `v` and every axis `i`, the `i`-th component of
`predict_drag_forces v` is nonnegative whatever the sign of `v i`, and it is zero exactly when
`v i` is zero. -/
theorem C13_drag_is_nonnegative (s : K) (v : six_axis K) (i : Fin 6) :
    0 ≤ predict_drag_forces (construct s) v i ∧
    (predict_drag_forces (construct s) v i = 0 ↔ v i = 0) := by
  have hrho : (construct s).rho_water = 1025 := rfl
  rw [predict_drag_forces_apply, hrho]
  have hc : (0 : K) < (![0.041, 0.05, 0.125, 0.005, 0.005, 0.005] : Fin 6 → K) i := by
    fin_cases i <;>
      simp only [Fin.reduceFinMk, Fin.isValue, Fin.zero_eta, Fin.mk_one, cons_val_zero,
        vecCons_val_one, vecCons_val_two, vecCons_val_three, vecCons_val_four,
        vecCons_val_five] <;>
      norm_num
  refine ⟨by positivity, ?_⟩
  constructor
  · intro h
    rcases mul_eq_zero.mp h with h1 | h1
    · rcases mul_eq_zero.mp h1 with h2 | h2
      · norm_num at h2
      · exact pow_eq_zero_iff (two_ne_zero) |>.mp h2
    · exact absurd h1 (ne_of_gt hc)
  · intro h
    rw [h]
    ring

/-! ## C14 -/

/-- C14: for every velocity vector `v` and every axis `i`, the magnitude of the `i`-th
component of `predict_drag_forces v` is `rho_water * c i * v i ^ 2` with `rho_water = 1025` and
`c = (0.041, 0.05, 0.125, 0.005, 0.005, 0.005)`, which is `combined_drag_coefs i * v i ^ 2`;
the component is the same for the vector that keeps only the `i`-th velocity component. -/
theorem C14_drag_magnitude (s : K) (v : six_axis K) (i : Fin 6) :
    (construct s).rho_water = 1025 ∧
    |predict_drag_forces (construct s) v i|
      = 1025 * (![0.041, 0.05, 0.125, 0.005, 0.005, 0.005] : Fin 6 → K) i * v i ^ 2 ∧
    |predict_drag_forces (construct s) v i| = (construct s).combined_drag_coefs i * v i ^ 2 ∧
    predict_drag_forces (construct s) v i
      = predict_drag_forces (construct s) (Function.update 0 i (v i)) i := by
  have hrho : (construct s).rho_water = 1025 := rfl
  have hcd : (construct s).combined_drag_coefs i
      = (![0.041, 0.05, 0.125, 0.005, 0.005, 0.005] : Fin 6 → K) i * 1025 := rfl
  have hnn := (predict_drag_forces_nonneg s v i)
  refine ⟨hrho, ?_, ?_, ?_⟩
  · rw [abs_of_nonneg hnn, predict_drag_forces_apply, hrho]
    ring
  · rw [abs_of_nonneg hnn, predict_drag_forces_apply, hrho, hcd]
    ring
  · rw [predict_drag_forces_apply, predict_drag_forces_apply, Function.update_same]

/-! ## C15 -/

/-- C15 (the code at orientation `(0, 0, 0)`): `weight_force` returns
`(0, 0, -(mass * gravity), 0, 0, 0) = (0, 0, 54.0531, 0, 0, 0)`, the opposite of the vector
`(0, 0, mass * gravity)` that it starts from: each of the three statements multiplies by the
negated rotation matrix, and the three negated identity matrices multiply to minus the
identity. -/
theorem C15_weight_force_at_zero_orientation (s : ℝ) :
    weight_force Real.cos Real.sin (construct s) ![0, 0, 0]
      = ![0, 0, -((construct s).mass * (construct s).gravity), 0, 0, 0] ∧
    (construct s).mass * (construct s).gravity = -54.0531 := by
  have hw : (construct s).weight_magnitude = (construct s).mass * (construct s).gravity := rfl
  have hm : (construct s).mass * (construct s).gravity = -54.0531 := by
    show (5.51 : ℝ) * (-9.81) = -54.0531
    norm_num
  refine ⟨?_, hm⟩
  simp only [weight_force, rotateNegated_vertical, hw]
  funext j
  fin_cases j <;> simp

/-! ## C16 -/

/-- C16: for every orientation, the three torque components (indices 3..5) of `weight_force`
are exactly zero. -/
theorem C16_weight_force_no_torque (cos sin : K → K) (tc : Thruster_Commander K)
    (orientation : three_axis K) :
    weight_force cos sin tc orientation 3 = 0 ∧
    weight_force cos sin tc orientation 4 = 0 ∧
    weight_force cos sin tc orientation 5 = 0 := by
  simp only [weight_force, Fin.isValue, vecCons_val_three, vecCons_val_four, vecCons_val_five,
    Pi.zero_apply, and_self]

/-! ## C17 -/

/-- C17: for every orientation, the torque part (indices 3..5) of `bouyant_force` is the cross
product of its force part (indices 0..2) with `volume_center - mass_center = (0, 0, 0.1)`; its
z component is zero for every orientation, and the whole torque is zero at orientation
`(0, 0, 0)`. -/
theorem C17_bouyant_torque (s : ℝ) (orientation : three_axis ℝ) :
    (construct s).volume_center - (construct s).mass_center = ![0, 0, 0.1] ∧
    ![bouyant_force Real.cos Real.sin (construct s) orientation 3,
      bouyant_force Real.cos Real.sin (construct s) orientation 4,
      bouyant_force Real.cos Real.sin (construct s) orientation 5]
      = crossProduct
          ![bouyant_force Real.cos Real.sin (construct s) orientation 0,
            bouyant_force Real.cos Real.sin (construct s) orientation 1,
            bouyant_force Real.cos Real.sin (construct s) orientation 2]
          ((construct s).volume_center - (construct s).mass_center) ∧
    bouyant_force Real.cos Real.sin (construct s) orientation 5 = 0 ∧
    (bouyant_force Real.cos Real.sin (construct s) ![0, 0, 0] 3 = 0 ∧
      bouyant_force Real.cos Real.sin (construct s) ![0, 0, 0] 4 = 0 ∧
      bouyant_force Real.cos Real.sin (construct s) ![0, 0, 0] 5 = 0) := by
  have hd : (construct s).volume_center - (construct s).mass_center = ![0, 0, 0.1] := by
    funext j
    fin_cases j <;> simp [construct, Function.update]
  refine ⟨hd, ?_, ?_, ?_⟩
  · rw [hd, cross_apply]
    simp only [bouyant_force, hd, cross, Fin.isValue, cons_val_zero, vecCons_val_one,
      vecCons_val_two, vecCons_val_three, vecCons_val_four, vecCons_val_five]
  · simp only [bouyant_force, hd, cross, Fin.isValue, cons_val_zero, vecCons_val_one,
      vecCons_val_two, vecCons_val_five]
    ring
  · simp only [bouyant_force, hd, cross, rotateNegated_vertical, Fin.isValue, cons_val_zero,
      vecCons_val_one, vecCons_val_two, vecCons_val_three, vecCons_val_four,
      vecCons_val_five, Real.cos_zero, Real.sin_zero]
    refine ⟨?_, ?_, ?_⟩ <;> ring

/-! ## C18 -/

/-- C18: for each value of `forward`, the magnitude of `top_speed_x forward` is
`sqrt (|F| / cd)`, where `F` is the surge component of `net_force_from_thrusters` for the force
set with the limit force (`min_thruster_force` when `forward`, else `max_thruster_force`) on
the angled thrusters 4..7 and zero on the others, and
`cd = combined_drag_coefs 0 = 0.041 * 1025`; `abs` is taken as the absolute value. -/
theorem C18_top_speed_magnitude (s : ℝ) (hs : s ≠ 0) (forward : Bool) :
    (construct s).combined_drag_coefs 0 = 0.041 * 1025 ∧
    |top_speed_x Real.sqrt (fun x => |x|) (construct s) forward|
      = Real.sqrt
          (|net_force_from_thrusters (construct s)
              ![0, 0, 0, 0,
                if forward then (construct s).min_thruster_force
                  else (construct s).max_thruster_force,
                if forward then (construct s).min_thruster_force
                  else (construct s).max_thruster_force,
                if forward then (construct s).min_thruster_force
                  else (construct s).max_thruster_force,
                if forward then (construct s).min_thruster_force
                  else (construct s).max_thruster_force] 0|
            / (construct s).combined_drag_coefs 0) := by
  have hcd : (construct s).combined_drag_coefs 0 = 0.041 * 1025 := rfl
  have hmin : (construct s).min_thruster_force = -3.5 := rfl
  have hmax : (construct s).max_thruster_force = 4.5 := rfl
  refine ⟨hcd, ?_⟩
  simp only [top_speed_x, angledForces_eq]
  have hfx : net_force_from_thrusters (construct s)
      ![0, 0, 0, 0,
        if forward then (construct s).min_thruster_force else (construct s).max_thruster_force,
        if forward then (construct s).min_thruster_force else (construct s).max_thruster_force,
        if forward then (construct s).min_thruster_force else (construct s).max_thruster_force,
        if forward then (construct s).min_thruster_force else (construct s).max_thruster_force]
        0 ≠ 0 := by
    rw [net_force_construct]
    simp only [Fin.isValue, cons_val_zero, vecCons_val_four, vecCons_val_five,
      vecCons_val_six, vecCons_val_seven, hmin, hmax]
    cases forward <;> simp <;> exact ⟨hs, by norm_num⟩
  rw [abs_mul, abs_div, abs_abs, div_self (abs_ne_zero.mpr hfx), one_mul,
    abs_of_nonneg (Real.sqrt_nonneg _)]

/-- C18 at a concrete input: `sin45 = 1 / 2`, forward. -/
theorem C18_top_speed_magnitude_witness :
    (1 / 2 : ℝ) ≠ 0 ∧
    |top_speed_x Real.sqrt (fun x => |x|) (construct (1 / 2 : ℝ)) true|
      = Real.sqrt
          (|net_force_from_thrusters (construct (1 / 2 : ℝ))
              ![0, 0, 0, 0,
                if true then (construct (1 / 2 : ℝ)).min_thruster_force
                  else (construct (1 / 2 : ℝ)).max_thruster_force,
                if true then (construct (1 / 2 : ℝ)).min_thruster_force
                  else (construct (1 / 2 : ℝ)).max_thruster_force,
                if true then (construct (1 / 2 : ℝ)).min_thruster_force
                  else (construct (1 / 2 : ℝ)).max_thruster_force,
                if true then (construct (1 / 2 : ℝ)).min_thruster_force
                  else (construct (1 / 2 : ℝ)).max_thruster_force] 0|
            / (construct (1 / 2 : ℝ)).combined_drag_coefs 0) :=
  ⟨by norm_num, (C18_top_speed_magnitude (1 / 2) (by norm_num) true).2⟩

/-! ## C19 -/

/-- C19: for the reference geometry and every surge force `x`, the wrench predicted for
`thrust_compute_fx x` has `Fx = x`, `Fy = 0`, `Fz = 0` and `Mz = 0`. -/
theorem C19_thrust_compute_fx_wrench (s : K) (hs : s ≠ 0) (x : K) :
    net_force_from_thrusters (construct s) (thrust_compute_fx s x) 0 = x ∧
    net_force_from_thrusters (construct s) (thrust_compute_fx s x) 1 = 0 ∧
    net_force_from_thrusters (construct s) (thrust_compute_fx s x) 2 = 0 ∧
    net_force_from_thrusters (construct s) (thrust_compute_fx s x) 5 = 0 :=
  (single_axis_wrenches s hs x 0 0).2.1

/-- C19 at a concrete input: the binary32 value of `sin45` and a surge request of 3 N. -/
theorem C19_thrust_compute_fx_wrench_witness :
    sin45_float ≠ 0 ∧
    net_force_from_thrusters (construct sin45_float) (thrust_compute_fx sin45_float 3) 0 = 3 ∧
    net_force_from_thrusters (construct sin45_float) (thrust_compute_fx sin45_float 3) 1 = 0 ∧
    net_force_from_thrusters (construct sin45_float) (thrust_compute_fx sin45_float 3) 2 = 0 ∧
    net_force_from_thrusters (construct sin45_float) (thrust_compute_fx sin45_float 3) 5 = 0 :=
  ⟨by norm_num [sin45_float],
    C19_thrust_compute_fx_wrench sin45_float (by norm_num [sin45_float]) 3⟩

/-! ## C20 -/

/-- C20 (the code at `y_force = 1`): the wrench predicted for `thrust_compute_fy 1` is
`(0, 1, 0, 0.0886494, 0, -0.0165864)`: `Fy = 1`, `Fx = Fz = 0`, but the yaw moment `Mz` is
`-0.0165864` and not 0. -/
theorem C20_thrust_compute_fy_wrench_at_one :
    net_force_from_thrusters (construct sin45_float) (thrust_compute_fy sin45_float 1)
      = ![0, 1, 0, 0.0886494, 0, -0.0165864] := by
  rw [net_force_construct, thrust_compute_fy_eq]
  simp only [Fin.isValue, cons_val_zero, vecCons_val_one, vecCons_val_two, vecCons_val_three,
    vecCons_val_four, vecCons_val_five, vecCons_val_six, vecCons_val_seven]
  norm_num [sin45_float]

/-! ## C21 -/

/-- C21: for the reference geometry (with `sin45` between 0.7071067 and 0.7071068, as the
square root of 2 divided by 2 and its binary32 rounding are) and every request with
`|x_force|`, `|y_force|`, `|z_torque|` at most 10, the wrench predicted for
`thrust_compute_fx_fy_mz x_force y_force z_torque` has `Fx` within `1e-4` of `x_force`, `Fy`
within `1e-4` of `y_force`, `Mz` within `1e-4` of `z_torque` and `Fz` within `1e-4` of 0. -/
theorem C21_fx_fy_mz_within_tolerance (s x y zt : K) (hs1 : 0.7071067 ≤ s)
    (hs2 : s ≤ 0.7071068) (hx : |x| ≤ 10) (hy : |y| ≤ 10) (hz : |zt| ≤ 10) :
    |net_force_from_thrusters (construct s) (thrust_compute_fx_fy_mz x y zt) 0 - x| ≤ 1e-4 ∧
    |net_force_from_thrusters (construct s) (thrust_compute_fx_fy_mz x y zt) 1 - y| ≤ 1e-4 ∧
    |net_force_from_thrusters (construct s) (thrust_compute_fx_fy_mz x y zt) 5 - zt| ≤ 1e-4 ∧
    |net_force_from_thrusters (construct s) (thrust_compute_fx_fy_mz x y zt) 2 - 0| ≤ 1e-4 := by
  rw [net_force_construct, thrust_compute_fx_fy_mz_eq]
  simp only [Fin.isValue, cons_val_zero, vecCons_val_one, vecCons_val_two, vecCons_val_three,
    vecCons_val_four, vecCons_val_five, vecCons_val_six, vecCons_val_seven]
  have hlin : |s * 1.414213124 - 1| ≤ 1e-6 := by
    rw [abs_le]
    constructor
    · norm_num at hs1 ⊢
      linarith only [hs1]
    · norm_num at hs2 ⊢
      linarith only [hs2]
  have hyaw : |s * 1.41421531666 - 1| ≤ 2e-6 := by
    rw [abs_le]
    constructor
    · norm_num at hs1 ⊢
      linarith only [hs1]
    · norm_num at hs2 ⊢
      linarith only [hs2]
  have hcross : |s * 3.173870864e-7| ≤ 3e-7 := by
    rw [abs_le]
    constructor
    · norm_num at hs1 ⊢
      linarith only [hs1]
    · norm_num at hs2 ⊢
      linarith only [hs2]
  have hzero : |(1.135109e-19 : K)| ≤ 1e-18 := by
    rw [abs_le]
    constructor <;> norm_num
  refine ⟨?_, ?_, ?_, ?_⟩
  · have e : -s * (-3.53553281e-01 * x + -3.72516112e-01 * y + -1.14326218e+00 * zt
          + (-3.53553281e-01 * x + 3.72516112e-01 * y + 1.14326218e+00 * zt)
          + (-3.53553281e-01 * x + 3.34590450e-01 * y + -1.14326218e+00 * zt)
          + (-3.53553281e-01 * x + -3.34590450e-01 * y + 1.14326218e+00 * zt)) - x
        = (s * 1.414213124 - 1) * x := by ring
    rw [e]
    have h := abs_mul_le_of_abs_le _ _ _ _ hlin hx
    norm_num at h ⊢
    linarith only [h]
  · have e : s * (-(-3.53553281e-01 * x + -3.72516112e-01 * y + -1.14326218e+00 * zt)
          + (-3.53553281e-01 * x + 3.72516112e-01 * y + 1.14326218e+00 * zt)
          + (-3.53553281e-01 * x + 3.34590450e-01 * y + -1.14326218e+00 * zt)
          - (-3.53553281e-01 * x + -3.34590450e-01 * y + 1.14326218e+00 * zt)) - y
        = (s * 1.414213124 - 1) * y := by ring
    rw [e]
    have h := abs_mul_le_of_abs_le _ _ _ _ hlin hy
    norm_num at h ⊢
    linarith only [h]
  · have e : s * (0.2926636 * (-(-3.53553281e-01 * x + -3.72516112e-01 * y
              + -1.14326218e+00 * zt)
            + (-3.53553281e-01 * x + 3.72516112e-01 * y + 1.14326218e+00 * zt))
          + 0.3258364 * (-(-3.53553281e-01 * x + 3.34590450e-01 * y + -1.14326218e+00 * zt)
            + (-3.53553281e-01 * x + -3.34590450e-01 * y + 1.14326218e+00 * zt))) - zt
        = s * 3.173870864e-7 * y + (s * 1.41421531666 - 1) * zt := by ring
    rw [e]
    have h1 := abs_mul_le_of_abs_le _ _ _ _ hcross hy
    have h2 := abs_mul_le_of_abs_le _ _ _ _ hyaw hz
    have h3 := abs_add (s * 3.173870864e-7 * y) ((s * 1.41421531666 - 1) * zt)
    norm_num at h1 h2 h3 ⊢
    linarith only [h1, h2, h3]
  · have e : -8.72533307e-02 * x + 1.08905877e-01 * y + 4.77297359e-17 * zt
          + (-8.72533307e-02 * x + -1.08905877e-01 * y + -9.09843115e-17 * zt)
          + (8.72533307e-02 * x + 1.08905877e-01 * y + -9.54417065e-17 * zt)
          + (8.72533307e-02 * x + -1.08905877e-01 * y + 1.38809793e-16 * zt) - 0
        = 1.135109e-19 * zt := by ring
    rw [e]
    have h := abs_mul_le_of_abs_le _ _ _ _ hzero hz
    norm_num at h ⊢
    linarith only [h]

/-- C21 at a concrete input: the binary32 value of `sin45` and the request `(1, 2, 3)`. -/
theorem C21_fx_fy_mz_within_tolerance_witness :
    (0.7071067 : ℚ) ≤ sin45_float ∧ sin45_float ≤ 0.7071068 ∧
    |(1 : ℚ)| ≤ 10 ∧ |(2 : ℚ)| ≤ 10 ∧ |(3 : ℚ)| ≤ 10 ∧
    |net_force_from_thrusters (construct sin45_float) (thrust_compute_fx_fy_mz 1 2 3) 0 - 1|
      ≤ 1e-4 :=
  have h1 : (0.7071067 : ℚ) ≤ sin45_float := by norm_num [sin45_float]
  have h2 : sin45_float ≤ 0.7071068 := by norm_num [sin45_float]
  have hx : |(1 : ℚ)| ≤ 10 := by norm_num
  have hy : |(2 : ℚ)| ≤ 10 := by norm_num [Nat.abs_ofNat]
  have hz : |(3 : ℚ)| ≤ 10 := by norm_num [Nat.abs_ofNat]
  ⟨h1, h2, hx, hy, hz, (C21_fx_fy_mz_within_tolerance sin45_float 1 2 3 h1 h2 hx hy hz).1⟩

/-! ## C22 -/

/-- C22: with `sin45` the square root of 2 divided by 2, every one of the eight thruster
direction vectors set by the constructor has Euclidean norm 1, so none is degenerate. -/
theorem C22_directions_are_unit (i : Fin 8) :
    Real.sqrt (∑ j, (construct (Real.sqrt 2 / 2)).thruster_directions i j ^ 2) = 1 := by
  have hdir : (construct (Real.sqrt 2 / 2)).thruster_directions
      = reference_directions (Real.sqrt 2 / 2) := rfl
  have hsq : (Real.sqrt 2 / 2) ^ 2 = 1 / 2 := by
    rw [div_pow, Real.sq_sqrt (by norm_num)]
    norm_num
  have hone : ∑ j, (construct (Real.sqrt 2 / 2)).thruster_directions i j ^ 2 = 1 := by
    rw [hdir, Fin.sum_univ_three]
    fin_cases i <;>
      simp only [reference_directions, Fin.reduceFinMk, Fin.isValue, Fin.zero_eta, Fin.mk_one,
        Matrix.of_apply, cons_val_zero, vecCons_val_one, vecCons_val_two, vecCons_val_three,
        vecCons_val_four, vecCons_val_five, vecCons_val_six, vecCons_val_seven, neg_sq,
        hsq] <;>
      norm_num
  rw [hone, Real.sqrt_one]

/-! ## C23 -/

/-- C23: on the reference geometry (`sin45` positive) `top_speed_x true` is strictly positive
and `top_speed_x false` is strictly negative; `abs` is taken as the absolute value. -/
theorem C23_top_speed_sign (s : ℝ) (hs : 0 < s) :
    0 < top_speed_x Real.sqrt (fun x => |x|) (construct s) true ∧
    top_speed_x Real.sqrt (fun x => |x|) (construct s) false < 0 := by
  constructor
  · rw [top_speed_x_eq]
    have hfx : 0 < -s * (4 * (if true = true then (-3.5 : ℝ) else 4.5)) := by
      simp only [if_true]
      linarith only [hs]
    rw [abs_of_pos hfx, div_self (ne_of_gt hfx), one_mul]
    exact Real.sqrt_pos.mpr (div_pos hfx (by norm_num))
  · rw [top_speed_x_eq]
    have hfx : -s * (4 * (if false = true then (-3.5 : ℝ) else 4.5)) < 0 := by
      simp only [Bool.false_eq_true, if_false]
      linarith only [hs]
    have hpos : 0 < -(-s * (4 * (if false = true then (-3.5 : ℝ) else 4.5))) := neg_pos.mpr hfx
    rw [abs_of_neg hfx, div_neg, div_self (ne_of_lt hfx)]
    have := Real.sqrt_pos.mpr (div_pos hpos (by norm_num : (0 : ℝ) < 0.041 * 1025))
    linarith only [this]

/-- C23 at a concrete input: `sin45 = 1 / 2`. -/
theorem C23_top_speed_sign_witness :
    (0 : ℝ) < 1 / 2 ∧
    0 < top_speed_x Real.sqrt (fun x => |x|) (construct (1 / 2 : ℝ)) true ∧
    top_speed_x Real.sqrt (fun x => |x|) (construct (1 / 2 : ℝ)) false < 0 :=
  ⟨by norm_num, C23_top_speed_sign (1 / 2) (by norm_num)⟩

/-! ## C24 -/

/-- C24 (the code on a table whose rows are all farther than `INT_MAX` from the force): the
table with forces `-3000000000` and `3000000000` has a row, is sorted, and 0 lies between its
smallest and largest force, yet the nearest-row loop ends with `closestRowIndex` unassigned:
no valid row is selected and the index that `determinePwmValue` would read is undefined. -/
theorem C24_no_row_selected :
    wideTable.Sorted (fun a b => a 0 ≤ b 0) ∧
    wideTable.head? = some (sampleRow (-3000000000) 1100) ∧
    wideTable.getLast? = some (sampleRow 3000000000 1900) ∧
    (sampleRow (-3000000000) 1100) 0 ≤ 0 ∧ (0 : ℚ) ≤ (sampleRow 3000000000 1900) 0 ∧
    (searchLoop 0 wideTable 0 (INT_MAX, none)).2 = none ∧
    nearestRowLookup wideTable 0 = Except.error PwmFailure.undefinedBehaviour := by
  have hloop : searchLoop 0 wideTable 0 (INT_MAX, none) = (INT_MAX, none) := by
    norm_num [searchLoop, wideTable, sampleRow, INT_MAX, abs_div, abs_neg, Nat.abs_ofNat]
  refine ⟨?_, rfl, rfl, by norm_num [sampleRow], by norm_num [sampleRow], by rw [hloop], ?_⟩
  · simp only [wideTable, List.Sorted, List.pairwise_cons, List.mem_cons, forall_eq_or_imp,
      List.mem_singleton, forall_eq, List.not_mem_nil, false_implies, implies_true,
      List.Pairwise.nil, and_true, sampleRow, cons_val_zero]
    norm_num
  · simp only [nearestRowLookup, hloop]

/-! ## C25 -/

/-- C25 (the code on a table whose rows are farther than `INT_MAX` from the second force): the
table with rows `(-3000000000, 1100)` and `(3000000000, 1900)` has strictly increasing forces
and non-decreasing commands; at the in-range force `-3000000000` `get_pwm` returns 1100, but
at the larger in-range force 0 it has no defined result, so there is no command to compare. -/
theorem C25_no_command_for_larger_force :
    wideTable.Sorted (fun a b => a 0 < b 0) ∧
    wideTable.Sorted (fun a b => a 5 ≤ b 5) ∧
    (-3000000000 : ℚ) ≤ 0 ∧
    get_pwm wideTable 0 (-3000000000) = Except.ok 1100 ∧
    get_pwm wideTable 0 0 = Except.error PwmFailure.undefinedBehaviour := by
  have hne : wideTable ≠ [] := by simp [wideTable]
  have hh : wideTable.head hne = sampleRow (-3000000000) 1100 := rfl
  have hl : wideTable.getLast hne = sampleRow 3000000000 1900 := rfl
  refine ⟨?_, ?_, by norm_num, ?_, ?_⟩
  · simp only [wideTable, List.Sorted, List.pairwise_cons, List.mem_cons, forall_eq_or_imp,
      List.mem_singleton, forall_eq, List.not_mem_nil, false_implies, implies_true,
      List.Pairwise.nil, and_true, sampleRow, cons_val_zero]
    norm_num
  · simp only [wideTable, List.Sorted, List.pairwise_cons, List.mem_cons, forall_eq_or_imp,
      List.mem_singleton, forall_eq, List.not_mem_nil, false_implies, implies_true,
      List.Pairwise.nil, and_true, sampleRow, vecCons_val_five]
    norm_num
  · have hloop : searchLoop (-3000000000) wideTable 0 (INT_MAX, none) = (0, some 0) := by
      norm_num [searchLoop, wideTable, sampleRow, INT_MAX, abs_div, abs_neg, Nat.abs_ofNat]
    have hdet : determinePwmValue (-3000000000) wideTable 0 (0 : Int) = some 1100 := by
      simp [determinePwmValue, readRow_zero wideTable hne, hh, sampleRow, vecCons_val_five]
    have h1 : ¬ (-3000000000 : ℚ) < (wideTable.head hne) 0 := by
      rw [hh]
      norm_num [sampleRow]
    have h2 : ¬ (-3000000000 : ℚ) > (wideTable.getLast hne) 0 := by
      rw [hl]
      norm_num [sampleRow]
    rw [get_pwm_eq wideTable hne, if_neg h1, if_neg h2]
    simp only [nearestRowLookup, hloop, hdet]
  · have hloop : searchLoop 0 wideTable 0 (INT_MAX, none) = (INT_MAX, none) := by
      norm_num [searchLoop, wideTable, sampleRow, INT_MAX, abs_div, abs_neg, Nat.abs_ofNat]
    have h1 : ¬ (0 : ℚ) < (wideTable.head hne) 0 := by
      rw [hh]
      norm_num [sampleRow]
    have h2 : ¬ (0 : ℚ) > (wideTable.getLast hne) 0 := by
      rw [hl]
      norm_num [sampleRow]
    rw [get_pwm_eq wideTable hne, if_neg h1, if_neg h2]
    simp only [nearestRowLookup, hloop]

/-! ## C26 -/

/-- C26: for every orientation, the Euclidean norm of the force part of `weight_force` is
`|mass * gravity|` and the Euclidean norm of the force part of `bouyant_force` is
`|rho_water * gravity * volume|`. -/
theorem C26_rotation_preserves_magnitude (s : ℝ) (orientation : three_axis ℝ) :
    Real.sqrt (weight_force Real.cos Real.sin (construct s) orientation 0 ^ 2
        + weight_force Real.cos Real.sin (construct s) orientation 1 ^ 2
        + weight_force Real.cos Real.sin (construct s) orientation 2 ^ 2)
      = |(construct s).mass * (construct s).gravity| ∧
    Real.sqrt (bouyant_force Real.cos Real.sin (construct s) orientation 0 ^ 2
        + bouyant_force Real.cos Real.sin (construct s) orientation 1 ^ 2
        + bouyant_force Real.cos Real.sin (construct s) orientation 2 ^ 2)
      = |(construct s).rho_water * (construct s).gravity * (construct s).volume| := by
  have hw : (construct s).weight_magnitude = (construct s).mass * (construct s).gravity := rfl
  have hb : (construct s).buoyant_magnitude
      = -(construct s).rho_water * (construct s).gravity * (construct s).volume := rfl
  have key : ∀ m : ℝ,
      (-m * (-(Real.cos (orientation 0) * Real.sin (orientation 1) * Real.cos (orientation 2))
          + Real.sin (orientation 0) * Real.sin (orientation 2))) ^ 2
        + (-m * (Real.cos (orientation 0) * Real.sin (orientation 1) * Real.sin (orientation 2)
          + Real.sin (orientation 0) * Real.cos (orientation 2))) ^ 2
        + (-m * (Real.cos (orientation 0) * Real.cos (orientation 1))) ^ 2 = m ^ 2 := by
    intro m
    have h0 := Real.sin_sq_add_cos_sq (orientation 0)
    have h1 := Real.sin_sq_add_cos_sq (orientation 1)
    have h2 := Real.sin_sq_add_cos_sq (orientation 2)
    have e0 : Real.sin (orientation 0) ^ 2 = 1 - Real.cos (orientation 0) ^ 2 := by
      linarith only [h0]
    have e1 : Real.sin (orientation 1) ^ 2 = 1 - Real.cos (orientation 1) ^ 2 := by
      linarith only [h1]
    have e2 : Real.sin (orientation 2) ^ 2 = 1 - Real.cos (orientation 2) ^ 2 := by
      linarith only [h2]
    ring_nf
    simp only [e0, e1, e2]
    ring
  constructor
  · simp only [weight_force, rotateNegated_vertical, hw, Fin.isValue, cons_val_zero,
      vecCons_val_one, vecCons_val_two]
    rw [key, Real.sqrt_sq_eq_abs]
  · simp only [bouyant_force, rotateNegated_vertical, hb, Fin.isValue, cons_val_zero,
      vecCons_val_one, vecCons_val_two]
    rw [key, Real.sqrt_sq_eq_abs, neg_mul, neg_mul, abs_neg]

/-! ## C27 -/

/-- C27: for each value of `forward`, the surge component of `predict_drag_forces` at surge
velocity `top_speed_x forward` has magnitude `|F|`, where `F` is the net surge thrust that
`top_speed_x` uses; the coefficient `combined_drag_coefs 0` of `top_speed_x` equals
`rho_water * c_inf[0]` of `predict_drag_forces`. -/
theorem C27_top_speed_is_equilibrium (s : ℝ) (hs : s ≠ 0) (forward : Bool)
    (velocity : six_axis ℝ) :
    (construct s).combined_drag_coefs 0 = (construct s).rho_water * 0.041 ∧
    |predict_drag_forces (construct s)
        (Function.update velocity 0
          (top_speed_x Real.sqrt (fun x => |x|) (construct s) forward)) 0|
      = |net_force_from_thrusters (construct s)
          (angledForces (if forward then (construct s).min_thruster_force
            else (construct s).max_thruster_force)) 0| := by
  have hrho : (construct s).rho_water = 1025 := rfl
  have hmin : (construct s).min_thruster_force = -3.5 := rfl
  have hmax : (construct s).max_thruster_force = 4.5 := rfl
  have hcd : (construct s).combined_drag_coefs 0 = (construct s).rho_water * 0.041 := by
    show (0.041 : ℝ) * 1025 = 1025 * 0.041
    ring
  refine ⟨hcd, ?_⟩
  rw [abs_of_nonneg (predict_drag_forces_nonneg s _ 0), predict_drag_forces_apply,
    Function.update_same, top_speed_x_eq, top_speed_surge_force, hrho, hmin, hmax]
  simp only [Fin.isValue, cons_val_zero]
  have hfx : -s * (4 * (if forward = true then (-3.5 : ℝ) else 4.5)) ≠ 0 := by
    cases forward <;> simp <;> exact ⟨hs, by norm_num⟩
  have habs : 0 < |(-s * (4 * (if forward = true then (-3.5 : ℝ) else 4.5)))| :=
    abs_pos.mpr hfx
  have hsq : (-s * (4 * (if forward = true then (-3.5 : ℝ) else 4.5))) ^ 2
      = |(-s * (4 * (if forward = true then (-3.5 : ℝ) else 4.5)))| ^ 2 := (sq_abs _).symm
  rw [mul_pow, div_pow, hsq, div_self (pow_ne_zero 2 (ne_of_gt habs)), one_mul,
    Real.sq_sqrt (div_nonneg (le_of_lt habs) (by norm_num))]
  field_simp
  ring

/-- C27 at a concrete input: `sin45 = 1 / 2`, forward, all other velocities zero. -/
theorem C27_top_speed_is_equilibrium_witness :
    (1 / 2 : ℝ) ≠ 0 ∧
    |predict_drag_forces (construct (1 / 2 : ℝ))
        (Function.update 0 0
          (top_speed_x Real.sqrt (fun x => |x|) (construct (1 / 2 : ℝ)) true)) 0|
      = |net_force_from_thrusters (construct (1 / 2 : ℝ))
          (angledForces (if true then (construct (1 / 2 : ℝ)).min_thruster_force
            else (construct (1 / 2 : ℝ)).max_thruster_force)) 0| :=
  ⟨by norm_num, (C27_top_speed_is_equilibrium (1 / 2) (by norm_num) true 0).2⟩

end Thruster_Commander

/-! ## C28 -/

/-- C28 (the code on every pin): for every `DigitalPin`, `enabled` is true after `enable` and
false after `disable`, and for every `PwmPin`, `enabled` is true after `enable`; but for every
`PwmPin`, `enabled` is also true after `disable`, because `disable` ends with
`currentPwm = 255`. -/
theorem C28_pwm_pin_enabled_after_disable :
    (∀ pin : DigitalPin, pin.enable.1.enabled = true ∧ pin.disable.1.enabled = false) ∧
    (∀ pin : PwmPin, pin.enable.1.enabled = true ∧ pin.disable.1.enabled = true) := by
  constructor
  · intro pin
    exact ⟨rfl, rfl⟩
  · intro pin
    exact ⟨rfl, rfl⟩
